import Mathlib

/-
Verification of the kube-cert-manager reconciliation core.

This file shallowly embeds the controller source (acme.go, dns.go,
kubernetes.go and the processor variants) into Lean.  Pure helpers
(challenge record derivation, base64, PEM framing, SHA-256) are embedded
directly; every effectful collaborator (cluster API, ACME server, DNS
provider plugin, bolt store) is modelled by explicit oracle results
threaded through the embedded functions, which additionally return a
trace of the externally visible actions they perform.
-/

set_option maxHeartbeats 4000000
set_option maxRecDepth 8000

/-- Truncation to 32 bits, modelling Go uint32 arithmetic. -/
def m32 (x : Nat) : Nat := x % 4294967296

/-- Right rotation of a 32-bit word by n bits. -/
def rotr32 (n x : Nat) : Nat := m32 (x / 2 ^ n + x % 2 ^ n * 2 ^ (32 - n))

/-- Bitwise complement inside 32 bits (argument already reduced mod 2^32). -/
def not32 (x : Nat) : Nat := 4294967295 - m32 x

/-- SHA-256 choice function. -/
def sha256Ch (x y z : Nat) : Nat := Nat.xor (Nat.land x y) (Nat.land (not32 x) z)

/-- SHA-256 majority function. -/
def sha256Maj (x y z : Nat) : Nat :=
  Nat.xor (Nat.land x y) (Nat.xor (Nat.land x z) (Nat.land y z))

/-- SHA-256 big sigma 0. -/
def bigSigma0 (x : Nat) : Nat := Nat.xor (rotr32 2 x) (Nat.xor (rotr32 13 x) (rotr32 22 x))

/-- SHA-256 big sigma 1. -/
def bigSigma1 (x : Nat) : Nat := Nat.xor (rotr32 6 x) (Nat.xor (rotr32 11 x) (rotr32 25 x))

/-- SHA-256 small sigma 0. -/
def smallSigma0 (x : Nat) : Nat := Nat.xor (rotr32 7 x) (Nat.xor (rotr32 18 x) (x / 2 ^ 3))

/-- SHA-256 small sigma 1. -/
def smallSigma1 (x : Nat) : Nat := Nat.xor (rotr32 17 x) (Nat.xor (rotr32 19 x) (x / 2 ^ 10))

/-- The 64 SHA-256 round constants. -/
def sha256K : List Nat :=
  [1116352408, 1899447441, 3049323471, 3921009573, 961987163, 1508970993, 2453635748, 2870763221,
   3624381080, 310598401, 607225278, 1426881987, 1925078388, 2162078206, 2614888103, 3248222580,
   3835390401, 4022224774, 264347078, 604807628, 770255983, 1249150122, 1555081692, 1996064986,
   2554220882, 2821834349, 2952996808, 3210313671, 3336571891, 3584528711, 113926993, 338241895,
   666307205, 773529912, 1294757372, 1396182291, 1695183700, 1986661051, 2177026350, 2456956037,
   2730485921, 2820302411, 3259730800, 3345764771, 3516065817, 3600352804, 4094571909, 275423344,
   430227734, 506948616, 659060556, 883997877, 958139571, 1322822218, 1537002063, 1747873779,
   1955562222, 2024104815, 2227730452, 2361852424, 2428436474, 2756734187, 3204031479, 3329325298]

/-- The eight-word SHA-256 working state. -/
structure Sha256State where
  a : Nat
  b : Nat
  c : Nat
  d : Nat
  e : Nat
  f : Nat
  g : Nat
  h : Nat
deriving DecidableEq

/-- Initial SHA-256 hash value. -/
def sha256Init : Sha256State :=
  ⟨1779033703, 3144134277, 1013904242, 2773480762, 1359893119, 2600822924, 528734635, 1541459225⟩

/-- Big-endian 32-bit words from a byte list (groups of four). -/
def beWords : List Nat → List Nat
  | b1 :: b2 :: b3 :: b4 :: rest =>
      (b1 * 16777216 + b2 * 65536 + b3 * 256 + b4) :: beWords rest
  | _ => []

/-- Extend a 16-word schedule by n further words. -/
def extendW (ws : List Nat) : Nat → List Nat
  | 0 => ws
  | n + 1 =>
      let len := ws.length
      let w := m32 (smallSigma1 (ws.getD (len - 2) 0) + ws.getD (len - 7) 0 +
                    smallSigma0 (ws.getD (len - 15) 0) + ws.getD (len - 16) 0)
      extendW (ws ++ [w]) n

/-- One pass of the 64 SHA-256 rounds, consuming constants and schedule in lockstep. -/
def sha256Rounds : List Nat → List Nat → Sha256State → Sha256State
  | k :: ks, w :: ws, s =>
      let t1 := m32 (s.h + bigSigma1 s.e + sha256Ch s.e s.f s.g + k + w)
      let t2 := m32 (bigSigma0 s.a + sha256Maj s.a s.b s.c)
      sha256Rounds ks ws ⟨m32 (t1 + t2), s.a, s.b, s.c, m32 (s.d + t1), s.e, s.f, s.g⟩
  | _, _, s => s

/-- Compress one 64-byte chunk into the running state. -/
def sha256Compress (st : Sha256State) (chunk : List Nat) : Sha256State :=
  let ws := extendW (beWords chunk) 48
  let s := sha256Rounds sha256K ws st
  ⟨m32 (st.a + s.a), m32 (st.b + s.b), m32 (st.c + s.c), m32 (st.d + s.d),
   m32 (st.e + s.e), m32 (st.f + s.f), m32 (st.g + s.g), m32 (st.h + s.h)⟩

/-- Big-endian byte expansion of a 64-bit value. -/
def be8 (n : Nat) : List Nat :=
  [n / 2 ^ 56 % 256, n / 2 ^ 48 % 256, n / 2 ^ 40 % 256, n / 2 ^ 32 % 256,
   n / 2 ^ 24 % 256, n / 2 ^ 16 % 256, n / 2 ^ 8 % 256, n % 256]

/-- Big-endian byte expansion of a 32-bit word. -/
def be4 (n : Nat) : List Nat := [n / 2 ^ 24 % 256, n / 2 ^ 16 % 256, n / 2 ^ 8 % 256, n % 256]

/-- SHA-256 message padding: 0x80, zeros to 56 mod 64, 64-bit big-endian bit length. -/
def sha256Pad (msg : List Nat) : List Nat :=
  let padZeros := (55 + 64 - msg.length % 64) % 64
  msg ++ 128 :: List.replicate padZeros 0 ++ be8 (msg.length * 8)

/-- Split a list into chunks of the given size; fuel bounds the recursion so the
definition stays structurally recursive (fuel = list length always suffices). -/
def chunksOfAux {A : Type} (n : Nat) : Nat → List A → List (List A)
  | 0, _ => []
  | _, [] => []
  | fuel + 1, l => l.take n :: chunksOfAux n fuel (l.drop n)

/-- Split a list into chunks of the given positive size. -/
def chunksOf {A : Type} (n : Nat) (l : List A) : List (List A) := chunksOfAux n l.length l

/-- SHA-256 of a byte list, as 32 bytes; models crypto/sha256 Sum256. -/
def sha256 (msg : List Nat) : List Nat :=
  let fin := (chunksOf 64 (sha256Pad msg)).foldl sha256Compress sha256Init
  be4 fin.a ++ be4 fin.b ++ be4 fin.c ++ be4 fin.d ++ be4 fin.e ++ be4 fin.f ++ be4 fin.g ++ be4 fin.h

/-- Bytes of an ASCII string, modelling the Go byte-slice conversion. -/
def strBytes (s : String) : List Nat := s.data.map Char.toNat

/-- Sanity check of the SHA-256 embedding against the FIPS 180-4 test vector for "abc". -/
theorem sha256_abc_vector :
    sha256 (strBytes "abc") =
      [186, 120, 22, 191, 143, 1, 207, 234, 65, 65, 64, 222, 93, 174, 34, 35,
       176, 3, 97, 163, 150, 23, 122, 156, 180, 16, 255, 97, 242, 0, 21, 173] := by
  decide

/-- The URL-safe base64 alphabet used by Go base64.URLEncoding. -/
def b64urlAlphabet : List Char :=
  "ABCDEFGHIJKLMNOPQRSTUVWXYZabcdefghijklmnopqrstuvwxyz0123456789-_".data

/-- The standard base64 alphabet used by Go base64.StdEncoding. -/
def b64stdAlphabet : List Char :=
  "ABCDEFGHIJKLMNOPQRSTUVWXYZabcdefghijklmnopqrstuvwxyz0123456789+/".data

/-- Character for a 6-bit group under the given alphabet. -/
def b64Char (alpha : List Char) (n : Nat) : Char := alpha.getD n 'A'

/-- Base64 data characters of a byte list (three input bytes per four output
characters; division and remainder express the Go bit shifts and masks). -/
def b64Groups (alpha : List Char) : List Nat → List Char
  | [] => []
  | [b1] => [b64Char alpha (b1 / 4), b64Char alpha (b1 % 4 * 16)]
  | [b1, b2] =>
      [b64Char alpha (b1 / 4), b64Char alpha (b1 % 4 * 16 + b2 / 16), b64Char alpha (b2 % 16 * 4)]
  | b1 :: b2 :: b3 :: rest =>
      b64Char alpha (b1 / 4) :: b64Char alpha (b1 % 4 * 16 + b2 / 16) ::
      b64Char alpha (b2 % 16 * 4 + b3 / 64) :: b64Char alpha (b3 % 64) :: b64Groups alpha rest

/-- Padding characters appended by a padded Go base64 encoder. -/
def b64PadString (len : Nat) : List Char :=
  match len % 3 with
  | 1 => ['=', '=']
  | 2 => ['=']
  | _ => []

/-- Padded base64 encoding (models EncodeToString of a padded Go encoding). -/
def b64EncodePadded (alpha : List Char) (bs : List Nat) : String :=
  ⟨b64Groups alpha bs ++ b64PadString bs.length⟩

/-- Unpadded base64 encoding (models EncodeToString of a raw Go encoding). -/
def b64EncodeNoPad (alpha : List Char) (bs : List Nat) : String :=
  ⟨b64Groups alpha bs⟩

/-- Models Go strings.TrimRight with cutset "=": drop every trailing equals sign. -/
def trimRightEq (s : String) : String :=
  ⟨(s.data.reverse.dropWhile (· == '=')).reverse⟩

/-- Models Go fmt.Sprintf over simple string concatenation and the challenge
derivation of dns.go DNSChallengeRecord: fqdn, TXT value and TTL for a
dns-01 challenge. -/
def DNSChallengeRecord (domain token jwkThumbprint : String) : String × String × Nat :=
  let fqdn := "_acme-challenge." ++ domain ++ "."
  let keyAuthorization := token ++ "." ++ jwkThumbprint
  let keyAuthorizationShaBytes := sha256 (strBytes keyAuthorization)
  let value := b64EncodePadded b64urlAlphabet keyAuthorizationShaBytes
  let value := trimRightEq value
  (fqdn, value, 30)

/-- An element read from a character list with a default that is not the
padding character is itself not the padding character, provided no listed
character is. -/
theorem getD_ne_pad (l : List Char) (hl : ∀ c ∈ l, c ≠ '=') (n : Nat) :
    l.getD n 'A' ≠ '=' := by
  induction l generalizing n with
  | nil => simp [List.getD]
  | cons a t ih =>
      cases n with
      | zero => simpa [List.getD] using hl a (by simp)
      | succ m =>
          simp only [List.getD, List.get?] at *
          exact ih (fun c hc => hl c (by simp [hc])) m

/-- No character in the URL-safe alphabet is the padding character. -/
theorem b64urlAlphabet_ne_pad : ∀ c ∈ b64urlAlphabet, c ≠ '=' := by decide

/-- Every data character produced by the base64 group encoder differs from
the padding character, for an alphabet avoiding it. -/
theorem b64Groups_ne_pad (alpha : List Char) (hA : ∀ c ∈ alpha, c ≠ '=') :
    ∀ bs : List Nat, ∀ c ∈ b64Groups alpha bs, c ≠ '='
  | [] => by simp [b64Groups]
  | [b1] => by
      intro c hc
      simp [b64Groups] at hc
      rcases hc with h | h <;> (subst h; exact getD_ne_pad alpha hA _)
  | [b1, b2] => by
      intro c hc
      simp [b64Groups] at hc
      rcases hc with h | h | h <;> (subst h; exact getD_ne_pad alpha hA _)
  | b1 :: b2 :: b3 :: rest => by
      intro c hc
      simp only [b64Groups, List.mem_cons] at hc
      rcases hc with h | h | h | h | h
      · subst h; exact getD_ne_pad alpha hA _
      · subst h; exact getD_ne_pad alpha hA _
      · subst h; exact getD_ne_pad alpha hA _
      · subst h; exact getD_ne_pad alpha hA _
      · exact b64Groups_ne_pad alpha hA rest c h

/-- Dropping while a predicate holds leaves a list whose members all refute
the predicate unchanged. -/
theorem dropWhile_of_forall_not {α : Type} (p : α → Bool) (l : List α)
    (h : ∀ a ∈ l, p a = false) : l.dropWhile p = l := by
  cases l with
  | nil => rfl
  | cons a t => simp [List.dropWhile, h a (by simp)]

/-- Trimming trailing padding from the padded base64 encoding yields exactly
the unpadded encoding. -/
theorem trimRightEq_b64EncodePadded (alpha : List Char) (hA : ∀ c ∈ alpha, c ≠ '=')
    (bs : List Nat) :
    trimRightEq (b64EncodePadded alpha bs) = b64EncodeNoPad alpha bs := by
  unfold trimRightEq b64EncodePadded b64EncodeNoPad
  have hdata : (String.mk (b64Groups alpha bs ++ b64PadString bs.length)).data
      = b64Groups alpha bs ++ b64PadString bs.length := rfl
  rw [hdata, List.reverse_append]
  have hg : (b64Groups alpha bs).reverse.dropWhile (· == '=') = (b64Groups alpha bs).reverse := by
    apply dropWhile_of_forall_not
    intro a ha
    have := b64Groups_ne_pad alpha hA bs a (by simpa using ha)
    simpa using this
  have hrev : ((b64Groups alpha bs).reverse).reverse = b64Groups alpha bs := List.reverse_reverse _
  unfold b64PadString
  rcases h3 : bs.length % 3 with _ | _ | _ | k <;>
    simp only [List.reverse_cons, List.reverse_nil, List.nil_append, List.cons_append,
      List.dropWhile] <;>
    simp [hg, hrev]

/-- C2: for every domain, token and JWK thumbprint, DNSChallengeRecord returns
fqdn = "_acme-challenge." ++ domain ++ "." (trailing dot), value =
base64url(sha256(token ++ "." ++ thumbprint)) with every padding character
removed, and ttl = 30; and two independent computations on the same inputs
yield byte-identical output. -/
theorem DNSChallengeRecord_spec (domain token thumb : String) :
    DNSChallengeRecord domain token thumb =
      ("_acme-challenge." ++ domain ++ ".",
       b64EncodeNoPad b64urlAlphabet (sha256 (strBytes (token ++ "." ++ thumb))),
       30) ∧
    (∀ d2 t2 th2 : String, d2 = domain → t2 = token → th2 = thumb →
      DNSChallengeRecord d2 t2 th2 = DNSChallengeRecord domain token thumb) := by
  constructor
  · show ("_acme-challenge." ++ domain ++ ".",
        trimRightEq (b64EncodePadded b64urlAlphabet (sha256 (strBytes (token ++ "." ++ thumb)))),
        30) = _
    rw [trimRightEq_b64EncodePadded b64urlAlphabet b64urlAlphabet_ne_pad]
  · intro d2 t2 th2 h1 h2 h3
    rw [h1, h2, h3]

/-- Witness for C2 at the concrete boundary example of the spec:
domain "example.com" yields fqdn "_acme-challenge.example.com.". -/
theorem DNSChallengeRecord_spec_witness :
    DNSChallengeRecord "example.com" "tok" "thumb" =
      ("_acme-challenge.example.com.",
       b64EncodeNoPad b64urlAlphabet (sha256 (strBytes ("tok" ++ "." ++ "thumb"))),
       30) ∧
    DNSChallengeRecord "example.com" "tok" "thumb" =
      DNSChallengeRecord "example.com" "tok" "thumb" :=
  ⟨(DNSChallengeRecord_spec "example.com" "tok" "thumb").1,
   (DNSChallengeRecord_spec "example.com" "tok" "thumb").2 "example.com" "tok" "thumb"
     rfl rfl rfl⟩

/-- The persisted ACME account record of acme.go, with the RSA keys modelled
by opaque numeric identities and certificate bytes as byte lists. -/
structure Account where
  accountURI : String
  agreedTerms : String
  currentTerms : String
  authz : String
  accountKey : Nat
  email : String
  certificate : List Nat
  certificateKey : Nat
  certificateURL : String
  domain : String
deriving DecidableEq

/-- The bolt Accounts bucket, modelled as an association list keyed by domain. -/
abbrev Store := List (String × Account)

/-- Lookup in the Accounts bucket plus gob decode; models findAccount of acme.go. -/
def findAccount (domain : String) (db : Store) : Option Account :=
  (List.find? (fun p => p.1 == domain) db).map (fun p => p.2)

/-- Keyed upsert into an association list, modelling a bolt bucket Put. -/
def storePut (k : String) (v : Account) : Store → Store
  | [] => [(k, v)]
  | (k2, v2) :: rest => if k2 == k then (k, v) :: rest else (k2, v2) :: storePut k v rest

/-- Models saveAccount of acme.go: gob encode and Put under the record domain. -/
def saveAccount (account : Account) (db : Store) : Store :=
  storePut account.domain account db

/-- Models deleteAccount of acme.go: a bolt Delete, which succeeds (returns
nil) even when the key is absent. -/
def deleteAccount (domain : String) (db : Store) : Except String Store :=
  .ok (List.filter (fun p => p.1 != domain) db)

/-- Domains keyed in the store. -/
def storeKeys (db : Store) : List String := List.map (fun p => p.1) db

/-- Lookup after an upsert: the written key maps to the new pair, other keys
are untouched. -/
theorem find?_storePut (k : String) (v : Account) (db : Store) (d : String) :
    List.find? (fun p => p.1 == d) (storePut k v db) =
      if d = k then some (k, v) else List.find? (fun p => p.1 == d) db := by
  induction db with
  | nil =>
      by_cases h : d = k
      · simp [storePut, List.find?, h]
      · have hb : (k == d) = false := by
          simp only [beq_eq_false_iff_ne]; exact fun hc => h hc.symm
        simp [storePut, List.find?, hb, h]
  | cons p rest ih =>
      obtain ⟨k2, v2⟩ := p
      by_cases hk : k2 = k
      · subst hk
        by_cases hd : d = k2
        · subst hd; simp [storePut, List.find?]
        · have hb : (k2 == d) = false := by
            simp only [beq_eq_false_iff_ne]; exact fun hc => hd hc.symm
          simp [storePut, List.find?, hb, hd]
      · have hb1 : (k2 == k) = false := by simp only [beq_eq_false_iff_ne]; exact hk
        by_cases hd : d = k2
        · subst hd
          have hne : ¬ d = k := hk
          simp [storePut, hb1, List.find?, hne]
        · have hb2 : (k2 == d) = false := by
            simp only [beq_eq_false_iff_ne]; exact fun hc => hd hc.symm
          simp [storePut, hb1, List.find?, hb2, ih]

/-- After an upsert, lookup of the written domain yields the new record and
every other domain is untouched. -/
theorem findAccount_saveAccount (a : Account) (db : Store) (d : String) :
    findAccount d (saveAccount a db) =
      if d = a.domain then some a else findAccount d db := by
  unfold findAccount saveAccount
  rw [find?_storePut]
  by_cases h : d = a.domain <;> simp [h]

/-- Every key of an upserted store is the written key or an original key. -/
theorem mem_storeKeys_storePut (k : String) (v : Account) (db : Store) (x : String) :
    x ∈ storeKeys (storePut k v db) → x = k ∨ x ∈ storeKeys db := by
  induction db with
  | nil => intro hx; simp [storePut, storeKeys] at hx; exact Or.inl hx
  | cons p rest ih =>
      obtain ⟨k2, v2⟩ := p
      by_cases hk : k2 = k
      · subst hk
        intro hx
        simp only [storePut, beq_self_eq_true, if_pos, storeKeys, List.map_cons,
          List.mem_cons] at hx
        rcases hx with hx | hx
        · exact Or.inl hx
        · refine Or.inr ?_
          simp only [storeKeys, List.map_cons, List.mem_cons]
          exact Or.inr hx
      · have hb1 : (k2 == k) = false := by simp only [beq_eq_false_iff_ne]; exact hk
        intro hx
        simp only [storePut, hb1, Bool.false_eq_true, if_neg, if_false, storeKeys,
          List.map_cons, List.mem_cons] at hx
        rcases hx with hx | hx
        · refine Or.inr ?_
          simp only [storeKeys, List.map_cons, List.mem_cons]
          exact Or.inl hx
        · rcases ih hx with hy | hy
          · exact Or.inl hy
          · refine Or.inr ?_
            simp only [storeKeys, List.map_cons, List.mem_cons]
            simp only [storeKeys] at hy
            exact Or.inr hy

/-- An upsert preserves distinctness of the stored domains: the store keeps
at most one record per domain. -/
theorem saveAccount_keys_nodup (a : Account) (db : Store)
    (h : (storeKeys db).Nodup) : (storeKeys (saveAccount a db)).Nodup := by
  unfold saveAccount
  induction db with
  | nil => simp [storePut, storeKeys]
  | cons p rest ih =>
      obtain ⟨k2, v2⟩ := p
      simp only [storeKeys, List.map_cons, List.nodup_cons] at h
      by_cases hk : k2 = a.domain
      · subst hk
        simp only [storePut, beq_self_eq_true, if_pos, storeKeys, List.map_cons,
          List.nodup_cons]
        exact h
      · have hb1 : (k2 == a.domain) = false := by simp only [beq_eq_false_iff_ne]; exact hk
        simp only [storePut, hb1, Bool.false_eq_true, if_neg, if_false, storeKeys,
          List.map_cons, List.nodup_cons]
        refine ⟨?_, ih h.2⟩
        intro hc
        rcases mem_storeKeys_storePut a.domain a rest k2 hc with hy | hy
        · exact hk hy
        · exact h.1 (by simpa [storeKeys] using hy)

/-- The desired certificate spec of kubernetes.go. -/
structure CertificateSpec where
  domain : String
  email : String
  provider : String
  secret : String
  secretKey : String
deriving DecidableEq

/-- The desired certificate object of kubernetes.go (metadata as pairs). -/
structure Certificate where
  metadata : List (String × String)
  spec : CertificateSpec
deriving DecidableEq

/-- A write performed by syncKubernetesSecret against the cluster API. -/
inductive SecretWrite where
  | putSecret (crt key : String)
  | postSecret (crt key : String)
deriving DecidableEq

/-- Decidable equality for Except values over decidable components. -/
instance instDecEqExcept {e a : Type} [DecidableEq e] [DecidableEq a] :
    DecidableEq (Except e a) := fun x y =>
  match x, y with
  | .error a1, .error a2 =>
      if h : a1 = a2 then .isTrue (congrArg Except.error h)
      else .isFalse (fun hc => h (Except.error.inj hc))
  | .ok a1, .ok a2 =>
      if h : a1 = a2 then .isTrue (congrArg Except.ok h)
      else .isFalse (fun hc => h (Except.ok.inj hc))
  | .error _, .ok _ => .isFalse (fun hc => Except.noConfusion hc)
  | .ok _, .error _ => .isFalse (fun hc => Except.noConfusion hc)

/-- The cluster API responses consulted by one syncKubernetesSecret run.
getResult carries the GET outcome: a transport error, or the status code
with the parse outcome of the body (the stored tls.crt and tls.key values;
a Go map lookup of a missing key yields the empty string). -/
structure SyncWorld where
  getResult : Except String (Nat × Except String (String × String))
  putStatus : Except String Nat
  postStatus : Except String Nat
deriving DecidableEq

/-- Models syncKubernetesSecret of kubernetes.go: GET the secret endpoint;
on 200 compare the stored pair against the freshly assembled pair and PUT
only on a difference (expecting 200); on 404 POST a new secret (expecting
201); on any other status return nil without writing.  The returned list
records the writes issued. -/
def syncKubernetesSecret (w : SyncWorld) (cert key : List Nat) :
    Except String (List SecretWrite) :=
  let crt := b64EncodePadded b64stdAlphabet cert
  let k := b64EncodePadded b64stdAlphabet key
  match w.getResult with
  | .error e => .error e
  | .ok (status, body) =>
    if status == 200 then
      match body with
      | .error e => .error e
      | .ok (curCrt, curKey) =>
        if curCrt != crt || curKey != k then
          match w.putStatus with
          | .error e => .error e
          | .ok s =>
            if s != 200 then .error ("Updating secret failed:" ++ toString s)
            else .ok [.putSecret crt k]
        else .ok []
    else if status == 404 then
      match w.postStatus with
      | .error e => .error e
      | .ok s =>
        if s != 201 then .error ("Secrets: Unexpected HTTP status code" ++ toString s)
        else .ok [.postSecret crt k]
    else .ok []

/-- C1 counterexample: a GET status that is neither 200 nor 404 (here 500)
is not an error: the function falls through to the final return nil and
reports success with zero writes, contradicting the claim that any other
GET status is an error. -/
theorem syncKubernetesSecret_other_status_not_error :
    syncKubernetesSecret ⟨.ok (500, .ok ("", "")), .ok 200, .ok 201⟩ [1] [2] =
      .ok [] := by
  rfl

/-- C1 as amended: the secret write follows the GET-then-compare discipline.
On GET 200 a PUT is issued if and only if the stored pair differs from the
freshly assembled pair, so a repeated reconcile with unchanged state performs
zero writes; on 404 a POST is issued expecting 201; and on any other GET
status the function performs no write and returns success. -/
theorem syncKubernetesSecret_disciplined (w : SyncWorld) (cert key : List Nat)
    (crt k : String)
    (hcrt : crt = b64EncodePadded b64stdAlphabet cert)
    (hk : k = b64EncodePadded b64stdAlphabet key) :
    (∀ curCrt curKey, w.getResult = .ok (200, .ok (curCrt, curKey)) →
        (curCrt = crt ∧ curKey = k → syncKubernetesSecret w cert key = .ok []) ∧
        (¬ (curCrt = crt ∧ curKey = k) →
          (∀ s, w.putStatus = .ok s →
            (s = 200 → syncKubernetesSecret w cert key = .ok [.putSecret crt k]) ∧
            (s ≠ 200 → ∃ e, syncKubernetesSecret w cert key = .error e)))) ∧
    (∀ body, w.getResult = .ok (404, body) →
        (∀ s, w.postStatus = .ok s →
          (s = 201 → syncKubernetesSecret w cert key = .ok [.postSecret crt k]) ∧
          (s ≠ 201 → ∃ e, syncKubernetesSecret w cert key = .error e))) ∧
    (∀ status body, w.getResult = .ok (status, body) → status ≠ 200 → status ≠ 404 →
        syncKubernetesSecret w cert key = .ok []) := by
  subst hcrt hk
  refine ⟨?_, ?_, ?_⟩
  · intro curCrt curKey hget
    constructor
    · rintro ⟨h1, h2⟩
      subst h1 h2
      simp [syncKubernetesSecret, hget]
    · intro hne
      intro s hput
      have hdiff : (curCrt != b64EncodePadded b64stdAlphabet cert) = true ∨
          (curKey != b64EncodePadded b64stdAlphabet key) = true := by
        by_cases h1 : curCrt = b64EncodePadded b64stdAlphabet cert
        · by_cases h2 : curKey = b64EncodePadded b64stdAlphabet key
          · exact absurd ⟨h1, h2⟩ hne
          · exact Or.inr (by simp [bne_iff_ne]; exact h2)
        · exact Or.inl (by simp [bne_iff_ne]; exact h1)
      constructor
      · intro hs
        subst hs
        rcases hdiff with hd | hd <;>
          simp [syncKubernetesSecret, hget, hput, hd]
      · intro hs
        refine ⟨"Updating secret failed:" ++ toString s, ?_⟩
        have hsb : (s != 200) = true := by simp [bne_iff_ne]; exact hs
        rcases hdiff with hd | hd <;>
          simp [syncKubernetesSecret, hget, hput, hd, hsb]
  · intro body hget s hpost
    constructor
    · intro hs
      subst hs
      simp [syncKubernetesSecret, hget, hpost]
    · intro hs
      refine ⟨"Secrets: Unexpected HTTP status code" ++ toString s, ?_⟩
      have hsb : (s != 201) = true := by simp [bne_iff_ne]; exact hs
      simp [syncKubernetesSecret, hget, hpost, hsb]
  · intro status body hget h200 h404
    have hb1 : (status == 200) = false := by simp [beq_eq_false_iff_ne]; exact h200
    have hb2 : (status == 404) = false := by simp [beq_eq_false_iff_ne]; exact h404
    simp [syncKubernetesSecret, hget, hb1, hb2]

/-- Witness for the amended C1 theorem, exercising the unchanged-state
zero-write path, the 404 create path and the fall-through status path at
concrete worlds. -/
theorem syncKubernetesSecret_disciplined_witness :
    syncKubernetesSecret
        ⟨.ok (200, .ok (b64EncodePadded b64stdAlphabet [1], b64EncodePadded b64stdAlphabet [2])),
         .ok 200, .ok 201⟩ [1] [2] = .ok [] ∧
    syncKubernetesSecret ⟨.ok (404, .ok ("", "")), .ok 200, .ok 201⟩ [1] [2] =
      .ok [.postSecret (b64EncodePadded b64stdAlphabet [1]) (b64EncodePadded b64stdAlphabet [2])] ∧
    syncKubernetesSecret ⟨.ok (403, .ok ("", "")), .ok 200, .ok 201⟩ [1] [2] = .ok [] := by
  refine ⟨?_, ?_, ?_⟩
  · exact (((syncKubernetesSecret_disciplined
        ⟨.ok (200, .ok (b64EncodePadded b64stdAlphabet [1], b64EncodePadded b64stdAlphabet [2])),
         .ok 200, .ok 201⟩ [1] [2] _ _ rfl rfl).1 _ _ rfl).1 ⟨rfl, rfl⟩)
  · exact (((syncKubernetesSecret_disciplined
        ⟨.ok (404, .ok ("", "")), .ok 200, .ok 201⟩ [1] [2] _ _ rfl rfl).2.1 _ rfl _ rfl).1 rfl)
  · exact ((syncKubernetesSecret_disciplined
        ⟨.ok (403, .ok ("", "")), .ok 200, .ok 201⟩ [1] [2] _ _ rfl rfl).2.2 403 _ rfl
        (by decide) (by decide))

/-- Models pem.EncodeToMemory: header line, base64 body in 64-column lines,
footer line, as bytes. -/
def pemEncodeBlock (t : String) (bs : List Nat) : List Nat :=
  strBytes ("-----BEGIN " ++ t ++ "-----\n")
    ++ (List.map (fun line => List.map Char.toNat (line ++ ['\n']))
        (chunksOf 64 (b64Groups b64stdAlphabet bs ++ b64PadString bs.length))).flatten
    ++ strBytes ("-----END " ++ t ++ "-----\n")

/-- Models x509.MarshalPKCS1PrivateKey applied to the opaque key identity:
an executable injective byte encoding of the key. -/
def marshalPKCS1 (k : Nat) : List Nat := List.map Char.toNat (Nat.toDigits 10 k)

/-- Models acme.JWKThumbprint applied to the public half of the opaque key
identity: an executable deterministic encoding of the key. -/
def jwkThumbprint (k : Nat) : String := String.mk (Nat.toDigits 16 k)

/-- The PKCS#1 PEM encoding of the certificate key of a record, as assembled
by processCertificate before the secret sync. -/
def certKeyPem (acc : Account) : List Nat :=
  pemEncodeBlock "RSA PRIVATE KEY" (marshalPKCS1 acc.certificateKey)

/-- Models RenewCert of acme.go: fetch the certificate chain from the stored
certificate URL and PEM-encode every DER block with block type CERTIFICATE.
The fetch outcome is the oracle argument. -/
def RenewCert (fetchResult : Except String (List (List Nat))) : Except String (List Nat) :=
  match fetchResult with
  | .error e => .error e
  | .ok blocks => .ok (List.map (pemEncodeBlock "CERTIFICATE") blocks).flatten

/-- Externally visible actions of one processCertificate run. -/
inductive PCAct where
  | findAct
  | newAccountAct
  | registerAct
  | updateRegAct
  | saveAct (a : Account)
  | renewAct (url : String)
  | authorizeAct (authzURL domain : String)
  | deleteRecordAct (fqdn value : String)
  | createRecordAct (fqdn value : String)
  | monitorAct (fqdn value : String)
  | acceptAct
  | createCertAct (domain : String)
  | syncSecretAct (cert key : List Nat)
deriving DecidableEq

/-- Oracle outcomes of the collaborators consulted by one processCertificate
run (part_001 variant with the processor lock): the bolt lookup, fresh
account generation, ACME client construction, registration, renewal fetch,
authorization, the exec-plugin DNS record calls, propagation monitoring,
challenge accept, certificate creation, the store saves and secret syncs. -/
structure PCWorld where
  findResult : Except String (Option Account)
  freshAccount : Except String Account
  clientResult : Except String Unit
  registerResult : Except String String
  updateRegResult : Except String Unit
  saveReg : Except String Unit
  renewFetch : Except String (List (List Nat))
  syncRenew : Except String Unit
  authorizeResult : Except String String
  createRecordResult : Except String Unit
  monitorResult : Except String Unit
  acceptResult : Except String Unit
  createCertResult : Except String (List Nat × String)
  saveIssue : Except String Unit
  syncIssue : Except String Unit
  retractResult : Except String Unit
deriving DecidableEq

/-- Sequencing for result-and-trace pairs: propagate the first error, keep
the accumulated trace. -/
def mbind (x : Except String Account × List PCAct)
    (f : Account → Except String Account × List PCAct) :
    Except String Account × List PCAct :=
  match x with
  | (.error e, t) => (.error e, t)
  | (.ok a, t) => ((f a).1, t ++ (f a).2)

/-- Lookup of the account record, creating a fresh one when absent
(processCertificate lines 296-307 of the processor variant). -/
def pcStart (w : PCWorld) : Except String Account × List PCAct :=
  match w.findResult with
  | .error e => (.error e, [.findAct])
  | .ok (some a) => (.ok a, [.findAct])
  | .ok none =>
      match w.freshAccount with
      | .error e => (.error e, [.findAct, .newAccountAct])
      | .ok a => (.ok a, [.findAct, .newAccountAct])

/-- Registration phase: when the record has no registration URI, register,
agree to the current terms, update the registration and persist the record. -/
def pcRegister (w : PCWorld) (acc : Account) : Except String Account × List PCAct :=
  if acc.accountURI == "" then
    match w.registerResult with
    | .error e => (.error ("Error registering account: " ++ e), [.registerAct])
    | .ok uri =>
      let acc2 : Account := { acc with accountURI := uri, agreedTerms := acc.currentTerms }
      match w.updateRegResult with
      | .error e => (.error ("Error agreeing to terms" ++ e), [.registerAct, .updateRegAct])
      | .ok _ =>
        match w.saveReg with
        | .error e =>
            (.error ("Error saving account" ++ e), [.registerAct, .updateRegAct, .saveAct acc2])
        | .ok _ => (.ok acc2, [.registerAct, .updateRegAct, .saveAct acc2])
  else (.ok acc, [])

/-- Refetch phase: with a stored certificate URL, re-fetch the certificate,
overwrite the record certificate and sync the secret; no authorization. -/
def pcRefetch (w : PCWorld) (acc : Account) : Except String Account × List PCAct :=
  match RenewCert w.renewFetch with
  | .error e => (.error ("Error renewing certificate" ++ e), [.renewAct acc.certificateURL])
  | .ok cert =>
    let acc2 : Account := { acc with certificate := cert }
    match w.syncRenew with
    | .error e =>
        (.error ("Error creating Kubernetes secret: " ++ e),
         [.renewAct acc.certificateURL, .syncSecretAct acc2.certificate (certKeyPem acc2)])
    | .ok _ =>
        (.ok acc2,
         [.renewAct acc.certificateURL, .syncSecretAct acc2.certificate (certKeyPem acc2)])

/-- Issue phase: authorize, derive the challenge, best-effort pre-delete of
the TXT record, create it, monitor propagation, accept, create the
certificate, persist, sync the secret, then delete the TXT record. -/
def pcIssue (w : PCWorld) (c : Certificate) (acc : Account) :
    Except String Account × List PCAct :=
  match w.authorizeResult with
  | .error e =>
      (.error ("Error authorizing account: " ++ e), [.authorizeAct acc.authz c.spec.domain])
  | .ok token =>
    let fv := DNSChallengeRecord c.spec.domain token (jwkThumbprint acc.accountKey)
    let fqdn := fv.1
    let value := fv.2.1
    let t0 := [PCAct.authorizeAct acc.authz c.spec.domain, PCAct.deleteRecordAct fqdn value]
    match w.createRecordResult with
    | .error e => (.error e, t0 ++ [.createRecordAct fqdn value])
    | .ok _ =>
      match w.monitorResult with
      | .error e => (.error e, t0 ++ [.createRecordAct fqdn value, .monitorAct fqdn value])
      | .ok _ =>
        match w.acceptResult with
        | .error e =>
            (.error e, t0 ++ [.createRecordAct fqdn value, .monitorAct fqdn value, .acceptAct])
        | .ok _ =>
          match w.createCertResult with
          | .error e =>
              (.error e,
               t0 ++ [.createRecordAct fqdn value, .monitorAct fqdn value, .acceptAct,
                      .createCertAct c.spec.domain])
          | .ok (cert, certURL) =>
            let acc2 : Account := { acc with certificate := cert, certificateURL := certURL }
            match w.saveIssue with
            | .error e =>
                (.error e,
                 t0 ++ [.createRecordAct fqdn value, .monitorAct fqdn value, .acceptAct,
                        .createCertAct c.spec.domain, .saveAct acc2])
            | .ok _ =>
              match w.syncIssue with
              | .error e =>
                  (.error ("Error creating Kubernetes secret: " ++ e),
                   t0 ++ [.createRecordAct fqdn value, .monitorAct fqdn value, .acceptAct,
                          .createCertAct c.spec.domain, .saveAct acc2,
                          .syncSecretAct acc2.certificate (certKeyPem acc2)])
              | .ok _ =>
                match w.retractResult with
                | .error e =>
                    (.error e,
                     t0 ++ [.createRecordAct fqdn value, .monitorAct fqdn value, .acceptAct,
                            .createCertAct c.spec.domain, .saveAct acc2,
                            .syncSecretAct acc2.certificate (certKeyPem acc2),
                            .deleteRecordAct fqdn value])
                | .ok _ =>
                    (.ok acc2,
                     t0 ++ [.createRecordAct fqdn value, .monitorAct fqdn value, .acceptAct,
                            .createCertAct c.spec.domain, .saveAct acc2,
                            .syncSecretAct acc2.certificate (certKeyPem acc2),
                            .deleteRecordAct fqdn value])

/-- Models processCertificate of the processor variant in part_001: find or
create the record, build the ACME client, register when needed, then either
refetch (certificate URL present) or run the full issue path. -/
def processCertificate (w : PCWorld) (c : Certificate) :
    Except String Account × List PCAct :=
  mbind (pcStart w) (fun acc =>
    match w.clientResult with
    | .error e => (.error ("Error creating ACME client: " ++ e), [])
    | .ok _ =>
      mbind (pcRegister w acc) (fun acc2 =>
        if acc2.certificateURL != "" then pcRefetch w acc2 else pcIssue w c acc2))

/-- Fully successful refetch phase: the fetched chain is PEM-encoded, the
record certificate is overwritten and the secret is synced. -/
theorem pcRefetch_ok (w : PCWorld) (acc : Account) (blocks : List (List Nat))
    (hr : w.renewFetch = .ok blocks) (hs : w.syncRenew = .ok ()) :
    pcRefetch w acc =
      (.ok { acc with certificate := (List.map (pemEncodeBlock "CERTIFICATE") blocks).flatten },
       [.renewAct acc.certificateURL,
        .syncSecretAct (List.map (pemEncodeBlock "CERTIFICATE") blocks).flatten
          (certKeyPem acc)]) := by
  simp [pcRefetch, RenewCert, hr, hs, certKeyPem]

/-- C3: a reconcile that starts from a stored record with a non-empty
certificateURL and terminates successfully performs no ACME authorization,
no challenge record placement, no challenge accept and no certificate
creation; it re-fetches the certificate bytes from certificateURL,
overwrites the record certificate field with their PEM encoding and syncs
the secret. -/
theorem processCertificate_refetch (w : PCWorld) (c : Certificate) (a : Account)
    (hfind : w.findResult = .ok (some a))
    (hurl : a.certificateURL ≠ "")
    (hok : ∃ res, (processCertificate w c).1 = .ok res) :
    (∀ x y, PCAct.authorizeAct x y ∉ (processCertificate w c).2) ∧
    (∀ f v, PCAct.createRecordAct f v ∉ (processCertificate w c).2) ∧
    PCAct.acceptAct ∉ (processCertificate w c).2 ∧
    (∀ d, PCAct.createCertAct d ∉ (processCertificate w c).2) ∧
    PCAct.renewAct a.certificateURL ∈ (processCertificate w c).2 ∧
    (∃ blocks, w.renewFetch = .ok blocks ∧
      ∀ res, (processCertificate w c).1 = .ok res →
        res.certificate = (List.map (pemEncodeBlock "CERTIFICATE") blocks).flatten ∧
        PCAct.syncSecretAct res.certificate (certKeyPem res) ∈ (processCertificate w c).2) := by
  have hstart : pcStart w = (.ok a, [PCAct.findAct]) := by simp [pcStart, hfind]
  obtain ⟨res0, hres0⟩ := hok
  cases hc : w.clientResult with
  | error e => simp [processCertificate, hstart, mbind, hc] at hres0
  | ok u =>
  by_cases huri : a.accountURI = ""
  · have hb : (a.accountURI == "") = true := by simp [huri]
    cases hreg : w.registerResult with
    | error e => simp [processCertificate, hstart, mbind, hc, pcRegister, hb, hreg] at hres0
    | ok uri =>
    cases hupd : w.updateRegResult with
    | error e =>
        simp [processCertificate, hstart, mbind, hc, pcRegister, hb, hreg, hupd] at hres0
    | ok u2 =>
    cases hsv : w.saveReg with
    | error e =>
        simp [processCertificate, hstart, mbind, hc, pcRegister, hb, hreg, hupd, hsv] at hres0
    | ok u3 =>
    have hreg2 : pcRegister w a = (.ok { a with accountURI := uri, agreedTerms := a.currentTerms }, [.registerAct, .updateRegAct, .saveAct { a with accountURI := uri, agreedTerms := a.currentTerms }]) := by
      simp [pcRegister, hb, hreg, hupd, hsv]
    have hurl2 : (({ a with accountURI := uri, agreedTerms := a.currentTerms } : Account).certificateURL != "") = true := by
      simp [bne_iff_ne]; exact hurl
    have hpc : processCertificate w c = ((pcRefetch w { a with accountURI := uri, agreedTerms := a.currentTerms }).1, [PCAct.findAct] ++ ([.registerAct, .updateRegAct, .saveAct { a with accountURI := uri, agreedTerms := a.currentTerms }] ++ (pcRefetch w { a with accountURI := uri, agreedTerms := a.currentTerms }).2)) := by
      simp [processCertificate, hstart, mbind, hc, hreg2, hurl2]
    cases hr : w.renewFetch with
    | error e =>
        rw [hpc] at hres0
        simp [pcRefetch, RenewCert, hr] at hres0
    | ok blocks =>
    cases hs : w.syncRenew with
    | error e =>
        rw [hpc] at hres0
        simp [pcRefetch, RenewCert, hr, hs] at hres0
    | ok u4 =>
    rw [pcRefetch_ok w { a with accountURI := uri, agreedTerms := a.currentTerms } blocks hr hs] at hpc
    rw [hpc]
    refine ⟨by simp, by simp, by simp, by simp, by simp, ⟨blocks, rfl, ?_⟩⟩
    intro res hres
    simp only [Except.ok.injEq] at hres
    subst hres
    exact ⟨rfl, by simp [certKeyPem]⟩
  · have hb : (a.accountURI == "") = false := by simp [huri]
    have hreg2 : pcRegister w a = (.ok a, []) := by simp [pcRegister, hb]
    have hurl2 : (a.certificateURL != "") = true := by simp [bne_iff_ne]; exact hurl
    have hpc : processCertificate w c = ((pcRefetch w a).1, [PCAct.findAct] ++ ([] ++ (pcRefetch w a).2)) := by
      simp [processCertificate, hstart, mbind, hc, hreg2, hurl2]
    cases hr : w.renewFetch with
    | error e =>
        rw [hpc] at hres0
        simp [pcRefetch, RenewCert, hr] at hres0
    | ok blocks =>
    cases hs : w.syncRenew with
    | error e =>
        rw [hpc] at hres0
        simp [pcRefetch, RenewCert, hr, hs] at hres0
    | ok u4 =>
    rw [pcRefetch_ok w a blocks hr hs] at hpc
    rw [hpc]
    refine ⟨by simp, by simp, by simp, by simp, by simp, ⟨blocks, rfl, ?_⟩⟩
    intro res hres
    simp only [Except.ok.injEq] at hres
    subst hres
    exact ⟨rfl, by simp [certKeyPem]⟩

/-- A concrete stored account with a certificate URL already present. -/
def accRefetch : Account :=
  { accountURI := "reg-uri", agreedTerms := "t", currentTerms := "t", authz := "az",
    accountKey := 7, email := "a@b.example", certificate := [], certificateKey := 9,
    certificateURL := "https://ca/cert/42", domain := "example.com" }

/-- A concrete desired certificate object. -/
def certExample : Certificate :=
  { metadata := [("namespace", "default")],
    spec := { domain := "example.com", email := "a@b.example", provider := "googledns",
              secret := "sec", secretKey := "key" } }

/-- An oracle world in which every collaborator succeeds and the stored
account already carries a certificate URL. -/
def wRefetch : PCWorld :=
  { findResult := .ok (some accRefetch), freshAccount := .error "unused",
    clientResult := .ok (), registerResult := .ok "uri", updateRegResult := .ok (),
    saveReg := .ok (), renewFetch := .ok [[1, 2]], syncRenew := .ok (),
    authorizeResult := .ok "tok", createRecordResult := .ok (), monitorResult := .ok (),
    acceptResult := .ok (), createCertResult := .ok ([], ""), saveIssue := .ok (),
    syncIssue := .ok (), retractResult := .ok () }

/-- Witness for C3: at the concrete refetch world, the hypotheses hold and
the successful run issues no authorization and re-fetches via renew. -/
theorem processCertificate_refetch_witness :
    wRefetch.findResult = .ok (some accRefetch) ∧
    accRefetch.certificateURL ≠ "" ∧
    (∀ x y, PCAct.authorizeAct x y ∉ (processCertificate wRefetch certExample).2) ∧
    PCAct.renewAct accRefetch.certificateURL ∈ (processCertificate wRefetch certExample).2 :=
  ⟨rfl, by decide,
   (processCertificate_refetch wRefetch certExample accRefetch rfl (by decide) ⟨_, rfl⟩).1,
   (processCertificate_refetch wRefetch certExample accRefetch rfl (by decide)
     ⟨_, rfl⟩).2.2.2.2.1⟩

/-- Every record saved during the registration phase carries the account key
of the record handed in. -/
theorem pcRegister_save_key (w : PCWorld) (acc rec : Account)
    (h : PCAct.saveAct rec ∈ (pcRegister w acc).2) : rec.accountKey = acc.accountKey := by
  by_cases hb : acc.accountURI = ""
  · have hbt : (acc.accountURI == "") = true := by simp [hb]
    cases hreg : w.registerResult with
    | error e => simp [pcRegister, hbt, hreg] at h
    | ok uri =>
      cases hupd : w.updateRegResult with
      | error e => simp [pcRegister, hbt, hreg, hupd] at h
      | ok u2 =>
        cases hsv : w.saveReg with
        | error e =>
            simp [pcRegister, hbt, hreg, hupd, hsv] at h
            rw [h]
        | ok u3 =>
            simp [pcRegister, hbt, hreg, hupd, hsv] at h
            rw [h]
  · have hbf : (acc.accountURI == "") = false := by simp [hb]
    simp [pcRegister, hbf] at h

/-- The refetch phase never saves the record. -/
theorem pcRefetch_no_save (w : PCWorld) (acc rec : Account)
    (h : PCAct.saveAct rec ∈ (pcRefetch w acc).2) : False := by
  cases hr : w.renewFetch with
  | error e => simp [pcRefetch, RenewCert, hr] at h
  | ok blocks =>
    cases hs : w.syncRenew with
    | error e => simp [pcRefetch, RenewCert, hr, hs] at h
    | ok u => simp [pcRefetch, RenewCert, hr, hs] at h

/-- Every record saved during the issue phase carries the account key of the
record handed in. -/
theorem pcIssue_save_key (w : PCWorld) (c : Certificate) (acc rec : Account)
    (h : PCAct.saveAct rec ∈ (pcIssue w c acc).2) : rec.accountKey = acc.accountKey := by
  cases ha : w.authorizeResult with
  | error e => simp [pcIssue, ha] at h
  | ok token =>
  cases hcr : w.createRecordResult with
  | error e => simp [pcIssue, ha, hcr] at h
  | ok u1 =>
  cases hm : w.monitorResult with
  | error e => simp [pcIssue, ha, hcr, hm] at h
  | ok u2 =>
  cases hac : w.acceptResult with
  | error e => simp [pcIssue, ha, hcr, hm, hac] at h
  | ok u3 =>
  cases hcc : w.createCertResult with
  | error e => simp [pcIssue, ha, hcr, hm, hac, hcc] at h
  | ok p =>
  obtain ⟨cert, certURL⟩ := p
  cases hsi : w.saveIssue with
  | error e =>
      simp [pcIssue, ha, hcr, hm, hac, hcc, hsi] at h
      rw [h]
  | ok u4 =>
  cases hsy : w.syncIssue with
  | error e =>
      simp [pcIssue, ha, hcr, hm, hac, hcc, hsi, hsy] at h
      rw [h]
  | ok u5 =>
  cases hrt : w.retractResult with
  | error e =>
      simp [pcIssue, ha, hcr, hm, hac, hcc, hsi, hsy, hrt] at h
      rw [h]
  | ok u6 =>
      simp [pcIssue, ha, hcr, hm, hac, hcc, hsi, hsy, hrt] at h
      rw [h]

/-- A successful registration phase preserves the account key of the record. -/
theorem pcRegister_ok_key (w : PCWorld) (acc acc2 : Account)
    (h : (pcRegister w acc).1 = .ok acc2) : acc2.accountKey = acc.accountKey := by
  by_cases hb : acc.accountURI = ""
  · have hbt : (acc.accountURI == "") = true := by simp [hb]
    cases hreg : w.registerResult with
    | error e => simp [pcRegister, hbt, hreg] at h
    | ok uri =>
      cases hupd : w.updateRegResult with
      | error e => simp [pcRegister, hbt, hreg, hupd] at h
      | ok u2 =>
        cases hsv : w.saveReg with
        | error e => simp [pcRegister, hbt, hreg, hupd, hsv] at h
        | ok u3 =>
            simp [pcRegister, hbt, hreg, hupd, hsv] at h
            rw [← h]
  · have hbf : (acc.accountURI == "") = false := by simp [hb]
    simp [pcRegister, hbf] at h
    rw [← h]

/-- Every record saved during a whole reconcile carries the account key of
the record produced by the lookup phase. -/
theorem processCertificate_save_key (w : PCWorld) (c : Certificate) (acc0 : Account)
    (t0 : List PCAct) (hstart : pcStart w = (.ok acc0, t0))
    (hns : ∀ rec, PCAct.saveAct rec ∉ t0) (rec : Account)
    (h : PCAct.saveAct rec ∈ (processCertificate w c).2) :
    rec.accountKey = acc0.accountKey := by
  cases hc : w.clientResult with
  | error e =>
      have htr : (processCertificate w c).2 = t0 ++ [] := by
        simp [processCertificate, hstart, mbind, hc]
      rw [htr] at h
      simp at h
      exact absurd h (hns rec)
  | ok u =>
  rcases hpr : pcRegister w acc0 with ⟨r2, t2⟩
  cases r2 with
  | error e =>
      have htr : (processCertificate w c).2 = t0 ++ t2 := by
        simp [processCertificate, hstart, mbind, hc, hpr]
      rw [htr] at h
      rcases List.mem_append.mp h with h | h
      · exact absurd h (hns rec)
      · exact pcRegister_save_key w acc0 rec (by rw [hpr]; exact h)
  | ok acc2 =>
      have hkey2 : acc2.accountKey = acc0.accountKey :=
        pcRegister_ok_key w acc0 acc2 (by rw [hpr])
      cases hb : acc2.certificateURL != "" with
      | true =>
          have htr : (processCertificate w c).2 = t0 ++ (t2 ++ (pcRefetch w acc2).2) := by
            simp [processCertificate, hstart, mbind, hc, hpr, hb]
          rw [htr] at h
          rcases List.mem_append.mp h with h | h
          · exact absurd h (hns rec)
          · rcases List.mem_append.mp h with h | h
            · exact pcRegister_save_key w acc0 rec (by rw [hpr]; exact h)
            · exact absurd h (fun hmem => pcRefetch_no_save w acc2 rec hmem)
      | false =>
          have htr : (processCertificate w c).2 = t0 ++ (t2 ++ (pcIssue w c acc2).2) := by
            simp [processCertificate, hstart, mbind, hc, hpr, hb]
          rw [htr] at h
          rcases List.mem_append.mp h with h | h
          · exact absurd h (hns rec)
          · rcases List.mem_append.mp h with h | h
            · exact pcRegister_save_key w acc0 rec (by rw [hpr]; exact h)
            · rw [← hkey2]
              exact pcIssue_save_key w c acc2 rec h

/-- C6: the account store keeps at most one record per domain (save is an
upsert keyed by the record domain, preserving key distinctness), and the
account key for a domain is never rotated: a fresh key enters only through
the lookup-absent path, and every record saved during a reconcile carries
the account key of the record the reconcile started from (the stored record
when the lookup succeeded, the freshly generated one when it was absent). -/
theorem account_store_upsert_and_key_invariant :
    (∀ (a : Account) (db : Store) (d : String),
        findAccount d (saveAccount a db) = if d = a.domain then some a else findAccount d db) ∧
    (∀ (a : Account) (db : Store), (storeKeys db).Nodup → (storeKeys (saveAccount a db)).Nodup) ∧
    (∀ (w : PCWorld) (c : Certificate) (a0 : Account), w.findResult = .ok (some a0) →
        ∀ rec, PCAct.saveAct rec ∈ (processCertificate w c).2 →
          rec.accountKey = a0.accountKey) ∧
    (∀ (w : PCWorld) (c : Certificate) (af : Account), w.findResult = .ok none →
        w.freshAccount = .ok af →
        ∀ rec, PCAct.saveAct rec ∈ (processCertificate w c).2 →
          rec.accountKey = af.accountKey) := by
  refine ⟨findAccount_saveAccount, saveAccount_keys_nodup, ?_, ?_⟩
  · intro w c a0 hfind rec h
    exact processCertificate_save_key w c a0 [PCAct.findAct]
      (by simp [pcStart, hfind]) (by intro r; simp) rec h
  · intro w c af hfind hfresh rec h
    exact processCertificate_save_key w c af [PCAct.findAct, PCAct.newAccountAct]
      (by simp [pcStart, hfind, hfresh]) (by intro r; simp) rec h

/-- Test for a TXT record creation action. -/
def isCreateRec : PCAct → Bool
  | .createRecordAct _ _ => true
  | _ => false

/-- Test for a TXT record deletion action. -/
def isDeleteRec : PCAct → Bool
  | .deleteRecordAct _ _ => true
  | _ => false

/-- True when some record deletion occurs strictly after the first record
creation in the trace. -/
def cleanupAfterCreate (t : List PCAct) : Bool :=
  ((t.dropWhile (fun a => ! isCreateRec a)).drop 1).any isDeleteRec

/-- Dropping from an append whose left part wholly satisfies the predicate
continues in the right part. -/
theorem dropWhile_append_of_all {A : Type} (p : A → Bool) (l1 l2 : List A)
    (h : ∀ a ∈ l1, p a = true) : (l1 ++ l2).dropWhile p = l2.dropWhile p := by
  induction l1 with
  | nil => rfl
  | cons a t ih =>
      simp only [List.cons_append, List.dropWhile, h a (by simp)]
      exact ih (fun x hx => h x (by simp [hx]))

/-- Cleanup detection ignores a creation-free prefix. -/
theorem cleanupAfterCreate_append (l1 l2 : List PCAct)
    (h : ∀ a ∈ l1, isCreateRec a = false) :
    cleanupAfterCreate (l1 ++ l2) = cleanupAfterCreate l2 := by
  unfold cleanupAfterCreate
  rw [dropWhile_append_of_all _ l1 l2 (fun a ha => by simp [h a ha])]

/-- A creation-free trace never reports cleanup after creation. -/
theorem cleanupAfterCreate_of_no_create (l : List PCAct)
    (h : ∀ a ∈ l, isCreateRec a = false) : cleanupAfterCreate l = false := by
  have : (l ++ []).dropWhile (fun a => ! isCreateRec a) = List.dropWhile (fun a => ! isCreateRec a) [] :=
    dropWhile_append_of_all _ l [] (fun a ha => by simp [h a ha])
  unfold cleanupAfterCreate
  rw [List.append_nil] at this
  rw [this]
  rfl

/-- Any-create over an append with a creation-free left part reduces to the
right part. -/
theorem anyCreate_append (l1 l2 : List PCAct) (h : ∀ a ∈ l1, isCreateRec a = false) :
    (l1 ++ l2).any isCreateRec = l2.any isCreateRec := by
  rw [List.any_append]
  have : l1.any isCreateRec = false := by
    rw [List.any_eq_false]
    intro a ha
    simp [h a ha]
  rw [this]
  simp

/-- The registration phase creates no TXT record. -/
theorem pcRegister_no_create (w : PCWorld) (acc : Account) :
    ∀ a ∈ (pcRegister w acc).2, isCreateRec a = false := by
  by_cases hb : acc.accountURI = ""
  · have hbt : (acc.accountURI == "") = true := by simp [hb]
    cases hreg : w.registerResult with
    | error e => simp [pcRegister, hbt, hreg, isCreateRec]
    | ok uri =>
      cases hupd : w.updateRegResult with
      | error e => simp [pcRegister, hbt, hreg, hupd, isCreateRec]
      | ok u2 =>
        cases hsv : w.saveReg with
        | error e => simp [pcRegister, hbt, hreg, hupd, hsv, isCreateRec]
        | ok u3 => simp [pcRegister, hbt, hreg, hupd, hsv, isCreateRec]
  · have hbf : (acc.accountURI == "") = false := by simp [hb]
    simp [pcRegister, hbf]

/-- The refetch phase creates no TXT record. -/
theorem pcRefetch_no_create (w : PCWorld) (acc : Account) :
    ∀ a ∈ (pcRefetch w acc).2, isCreateRec a = false := by
  cases hr : w.renewFetch with
  | error e => simp [pcRefetch, RenewCert, hr, isCreateRec]
  | ok blocks =>
    cases hs : w.syncRenew with
    | error e => simp [pcRefetch, RenewCert, hr, hs, isCreateRec]
    | ok u => simp [pcRefetch, RenewCert, hr, hs, isCreateRec]

/-- Cleanup behaviour of the issue phase: a successful issue run retracts
the record after creation, and any retraction after creation happens only as
the final action, directly after the store save and the secret sync. -/
theorem pcIssue_cleanup (w : PCWorld) (c : Certificate) (acc : Account) :
    (∀ res, (pcIssue w c acc).1 = .ok res → cleanupAfterCreate (pcIssue w c acc).2 = true) ∧
    (cleanupAfterCreate (pcIssue w c acc).2 = true →
      ∃ pre a2 crt k f v, (pcIssue w c acc).2 =
        pre ++ [PCAct.saveAct a2, PCAct.syncSecretAct crt k, PCAct.deleteRecordAct f v]) := by
  cases ha : w.authorizeResult with
  | error e =>
      refine ⟨fun res hres => by simp [pcIssue, ha] at hres, fun hcl => ?_⟩
      simp [pcIssue, ha, cleanupAfterCreate, isCreateRec, isDeleteRec] at hcl
  | ok token =>
  cases hcr : w.createRecordResult with
  | error e =>
      refine ⟨fun res hres => by simp [pcIssue, ha, hcr] at hres, fun hcl => ?_⟩
      simp [pcIssue, ha, hcr, cleanupAfterCreate, isCreateRec, isDeleteRec,
        List.dropWhile] at hcl
  | ok u1 =>
  cases hm : w.monitorResult with
  | error e =>
      refine ⟨fun res hres => by simp [pcIssue, ha, hcr, hm] at hres, fun hcl => ?_⟩
      simp [pcIssue, ha, hcr, hm, cleanupAfterCreate, isCreateRec, isDeleteRec,
        List.dropWhile] at hcl
  | ok u2 =>
  cases hac : w.acceptResult with
  | error e =>
      refine ⟨fun res hres => by simp [pcIssue, ha, hcr, hm, hac] at hres, fun hcl => ?_⟩
      simp [pcIssue, ha, hcr, hm, hac, cleanupAfterCreate, isCreateRec, isDeleteRec,
        List.dropWhile] at hcl
  | ok u3 =>
  cases hcc : w.createCertResult with
  | error e =>
      refine ⟨fun res hres => by simp [pcIssue, ha, hcr, hm, hac, hcc] at hres, fun hcl => ?_⟩
      simp [pcIssue, ha, hcr, hm, hac, hcc, cleanupAfterCreate, isCreateRec, isDeleteRec,
        List.dropWhile] at hcl
  | ok p =>
  obtain ⟨cert, certURL⟩ := p
  cases hsi : w.saveIssue with
  | error e =>
      refine ⟨fun res hres => by simp [pcIssue, ha, hcr, hm, hac, hcc, hsi] at hres,
        fun hcl => ?_⟩
      simp [pcIssue, ha, hcr, hm, hac, hcc, hsi, cleanupAfterCreate, isCreateRec,
        isDeleteRec, List.dropWhile] at hcl
  | ok u4 =>
  cases hsy : w.syncIssue with
  | error e =>
      refine ⟨fun res hres => by simp [pcIssue, ha, hcr, hm, hac, hcc, hsi, hsy] at hres,
        fun hcl => ?_⟩
      simp [pcIssue, ha, hcr, hm, hac, hcc, hsi, hsy, cleanupAfterCreate, isCreateRec,
        isDeleteRec, List.dropWhile] at hcl
  | ok u5 =>
  cases hrt : w.retractResult with
  | error e =>
      constructor
      · intro res hres
        simp [pcIssue, ha, hcr, hm, hac, hcc, hsi, hsy, hrt] at hres
      · intro hcl
        refine ⟨[PCAct.authorizeAct acc.authz c.spec.domain,
          PCAct.deleteRecordAct (DNSChallengeRecord c.spec.domain token (jwkThumbprint acc.accountKey)).1 (DNSChallengeRecord c.spec.domain token (jwkThumbprint acc.accountKey)).2.1,
          PCAct.createRecordAct (DNSChallengeRecord c.spec.domain token (jwkThumbprint acc.accountKey)).1 (DNSChallengeRecord c.spec.domain token (jwkThumbprint acc.accountKey)).2.1,
          PCAct.monitorAct (DNSChallengeRecord c.spec.domain token (jwkThumbprint acc.accountKey)).1 (DNSChallengeRecord c.spec.domain token (jwkThumbprint acc.accountKey)).2.1,
          PCAct.acceptAct, PCAct.createCertAct c.spec.domain],
          { acc with certificate := cert, certificateURL := certURL },
          cert, certKeyPem { acc with certificate := cert, certificateURL := certURL },
          (DNSChallengeRecord c.spec.domain token (jwkThumbprint acc.accountKey)).1,
          (DNSChallengeRecord c.spec.domain token (jwkThumbprint acc.accountKey)).2.1, ?_⟩
        simp [pcIssue, ha, hcr, hm, hac, hcc, hsi, hsy, hrt]
  | ok u6 =>
      constructor
      · intro res hres
        simp [pcIssue, ha, hcr, hm, hac, hcc, hsi, hsy, hrt, cleanupAfterCreate,
          isCreateRec, isDeleteRec, List.dropWhile]
      · intro hcl
        refine ⟨[PCAct.authorizeAct acc.authz c.spec.domain,
          PCAct.deleteRecordAct (DNSChallengeRecord c.spec.domain token (jwkThumbprint acc.accountKey)).1 (DNSChallengeRecord c.spec.domain token (jwkThumbprint acc.accountKey)).2.1,
          PCAct.createRecordAct (DNSChallengeRecord c.spec.domain token (jwkThumbprint acc.accountKey)).1 (DNSChallengeRecord c.spec.domain token (jwkThumbprint acc.accountKey)).2.1,
          PCAct.monitorAct (DNSChallengeRecord c.spec.domain token (jwkThumbprint acc.accountKey)).1 (DNSChallengeRecord c.spec.domain token (jwkThumbprint acc.accountKey)).2.1,
          PCAct.acceptAct, PCAct.createCertAct c.spec.domain],
          { acc with certificate := cert, certificateURL := certURL },
          cert, certKeyPem { acc with certificate := cert, certificateURL := certURL },
          (DNSChallengeRecord c.spec.domain token (jwkThumbprint acc.accountKey)).1,
          (DNSChallengeRecord c.spec.domain token (jwkThumbprint acc.accountKey)).2.1, ?_⟩
        simp [pcIssue, ha, hcr, hm, hac, hcc, hsi, hsy, hrt]

/-- C5 as amended: in a reconcile that creates the DNS challenge TXT record,
the record deletion is attempted when the run succeeds, and then only as the
final action, after the account record save and the secret sync; a run that
fails before reaching that final retraction performs no deletion after the
creation (the only pre-positioned delete is the best-effort delete issued
before the create). -/
theorem processCertificate_challenge_cleanup (w : PCWorld) (c : Certificate) :
    (∀ res, (processCertificate w c).1 = .ok res →
        ((processCertificate w c).2.any isCreateRec) = true →
        cleanupAfterCreate (processCertificate w c).2 = true) ∧
    (cleanupAfterCreate (processCertificate w c).2 = true →
      ∃ pre a2 crt k f v, (processCertificate w c).2 =
        pre ++ [PCAct.saveAct a2, PCAct.syncSecretAct crt k, PCAct.deleteRecordAct f v]) := by
  rcases hst : pcStart w with ⟨r0, t0⟩
  have ht0 : ∀ a ∈ t0, isCreateRec a = false := by
    unfold pcStart at hst
    cases hf : w.findResult with
    | error e => rw [hf] at hst; injection hst with h1 h2; rw [← h2]; simp [isCreateRec]
    | ok o =>
      cases o with
      | some acc => rw [hf] at hst; injection hst with h1 h2; rw [← h2]; simp [isCreateRec]
      | none =>
        rw [hf] at hst
        cases hfr : w.freshAccount with
        | error e =>
            rw [hfr] at hst; injection hst with h1 h2; rw [← h2]; simp [isCreateRec]
        | ok af =>
            rw [hfr] at hst; injection hst with h1 h2; rw [← h2]; simp [isCreateRec]
  cases r0 with
  | error e =>
      have hpc : processCertificate w c = (.error e, t0) := by
        simp [processCertificate, mbind, hst]
      rw [hpc]
      refine ⟨fun res hres => by simp at hres, fun hcl => ?_⟩
      rw [cleanupAfterCreate_of_no_create t0 ht0] at hcl
      exact absurd hcl (by simp)
  | ok acc0 =>
  cases hc : w.clientResult with
  | error e =>
      have hpc : processCertificate w c = (.error ("Error creating ACME client: " ++ e), t0 ++ []) := by
        simp [processCertificate, mbind, hst, hc]
      rw [hpc]
      refine ⟨fun res hres => by simp at hres, fun hcl => ?_⟩
      rw [List.append_nil, cleanupAfterCreate_of_no_create t0 ht0] at hcl
      exact absurd hcl (by simp)
  | ok u =>
  rcases hpr : pcRegister w acc0 with ⟨r2, t2⟩
  have ht2 : ∀ a ∈ t2, isCreateRec a = false := by
    have := pcRegister_no_create w acc0
    rw [hpr] at this
    exact this
  cases r2 with
  | error e =>
      have hpc : processCertificate w c = (.error e, t0 ++ t2) := by
        simp [processCertificate, mbind, hst, hc, hpr]
      rw [hpc]
      refine ⟨fun res hres => by simp at hres, fun hcl => ?_⟩
      rw [cleanupAfterCreate_append t0 t2 ht0,
        cleanupAfterCreate_of_no_create t2 ht2] at hcl
      exact absurd hcl (by simp)
  | ok acc2 =>
  cases hb : acc2.certificateURL != "" with
  | true =>
      have hpc : processCertificate w c =
          ((pcRefetch w acc2).1, t0 ++ (t2 ++ (pcRefetch w acc2).2)) := by
        simp [processCertificate, mbind, hst, hc, hpr, hb]
      rw [hpc]
      have hnc := pcRefetch_no_create w acc2
      refine ⟨fun res hres hany => ?_, fun hcl => ?_⟩
      · rw [anyCreate_append t0 _ ht0, anyCreate_append t2 _ ht2] at hany
        rw [List.any_eq_true] at hany
        obtain ⟨a, ha, hca⟩ := hany
        rw [hnc a ha] at hca
        exact absurd hca (by simp)
      · rw [cleanupAfterCreate_append t0 _ ht0, cleanupAfterCreate_append t2 _ ht2,
          cleanupAfterCreate_of_no_create _ hnc] at hcl
        exact absurd hcl (by simp)
  | false =>
      have hpc : processCertificate w c =
          ((pcIssue w c acc2).1, t0 ++ (t2 ++ (pcIssue w c acc2).2)) := by
        simp [processCertificate, mbind, hst, hc, hpr, hb]
      rw [hpc]
      refine ⟨fun res hres hany => ?_, fun hcl => ?_⟩
      · rw [cleanupAfterCreate_append t0 _ ht0, cleanupAfterCreate_append t2 _ ht2]
        exact (pcIssue_cleanup w c acc2).1 res hres
      · rw [cleanupAfterCreate_append t0 _ ht0, cleanupAfterCreate_append t2 _ ht2] at hcl
        obtain ⟨pre, a2, crt, k, f, v, hdec⟩ := (pcIssue_cleanup w c acc2).2 hcl
        refine ⟨t0 ++ (t2 ++ pre), a2, crt, k, f, v, ?_⟩
        rw [hdec]
        simp [List.append_assoc]

/-- A concrete stored account with registration done but no certificate URL,
so a reconcile takes the issue path. -/
def accIssue : Account :=
  { accountURI := "reg-uri", agreedTerms := "t", currentTerms := "t", authz := "az",
    accountKey := 7, email := "a@b.example", certificate := [], certificateKey := 9,
    certificateURL := "", domain := "example.com" }

/-- An oracle world in which the whole issue path succeeds. -/
def wIssueOK : PCWorld :=
  { findResult := .ok (some accIssue), freshAccount := .error "unused",
    clientResult := .ok (), registerResult := .ok "uri", updateRegResult := .ok (),
    saveReg := .ok (), renewFetch := .error "unused", syncRenew := .ok (),
    authorizeResult := .ok "tok", createRecordResult := .ok (), monitorResult := .ok (),
    acceptResult := .ok (), createCertResult := .ok ([5, 6], "https://ca/cert/7"),
    saveIssue := .ok (), syncIssue := .ok (), retractResult := .ok () }

/-- The same world except that DNS propagation monitoring fails after the
TXT record has been created. -/
def wIssueFail : PCWorld := { wIssueOK with monitorResult := .error "propagation timeout" }

/-- C5 counterexample: a run that creates the TXT record and then fails in
propagation monitoring terminates with an error yet performs no record
deletion after the creation, contradicting the claim that the record is
deleted on rollback when the run fails. -/
theorem processCertificate_no_rollback_cleanup :
    ((processCertificate wIssueFail certExample).2.any isCreateRec) = true ∧
    (∃ e, (processCertificate wIssueFail certExample).1 = .error e) ∧
    cleanupAfterCreate (processCertificate wIssueFail certExample).2 = false :=
  ⟨rfl, ⟨"propagation timeout", rfl⟩, rfl⟩

/-- Witness for the amended C5 theorem at the fully successful issue world:
the run creates the record and the retraction is detected after the create. -/
theorem processCertificate_challenge_cleanup_witness :
    ((processCertificate wIssueOK certExample).2.any isCreateRec) = true ∧
    cleanupAfterCreate (processCertificate wIssueOK certExample).2 = true :=
  ⟨rfl, (processCertificate_challenge_cleanup wIssueOK certExample).1 _ rfl rfl⟩

/-- Witness for C6 at concrete inputs: the upsert law evaluated on the empty
store, distinctness preservation, and key invariance of every record saved
by the successful issue run. -/
theorem account_store_upsert_and_key_invariant_witness :
    wIssueOK.findResult = .ok (some accIssue) ∧
    (storeKeys ([] : Store)).Nodup ∧
    findAccount "example.com" (saveAccount accIssue []) = some accIssue ∧
    (storeKeys (saveAccount accIssue [])).Nodup ∧
    (∀ rec, PCAct.saveAct rec ∈ (processCertificate wIssueOK certExample).2 →
      rec.accountKey = accIssue.accountKey) := by
  refine ⟨rfl, by simp [storeKeys], ?_, ?_, ?_⟩
  · rw [account_store_upsert_and_key_invariant.1 accIssue [] "example.com"]
    rfl
  · exact account_store_upsert_and_key_invariant.2.1 accIssue [] (by simp [storeKeys])
  · intro rec h
    exact account_store_upsert_and_key_invariant.2.2.1 wIssueOK certExample accIssue rfl rec h

/-- A resource record in a TXT answer section: a TXT record with its string
fragments, or a record of another type. -/
inductive DNSAnswerRR where
  | txt (strs : List String)
  | other
deriving DecidableEq

/-- One exchange outcome observed by a per-nameserver polling loop: a
query/transport error or an answer section; cost is the query duration in
seconds. -/
inductive DNSResp where
  | queryErr (cost : Nat)
  | ans (cost : Nat) (answers : List DNSAnswerRR)
deriving DecidableEq

/-- A record satisfies the challenge when it is a TXT record whose
concatenated strings equal the challenge value (strings.Join with empty
separator). -/
def rrMatches (value : String) : DNSAnswerRR → Bool
  | .txt ss => String.join ss == value
  | .other => false

/-- Time at which one nameserver loop returns, given its stream of exchange
outcomes: errors and empty answers cost their query duration plus the one
second retry sleep; a non-empty answer without a matching TXT retries with
no sleep; a matching TXT returns after its query duration.  none means the
loop never returns within the observed stream. -/
def nsSatisfyTime (value : String) : List DNSResp → Option Nat
  | [] => none
  | .queryErr c :: rest => (nsSatisfyTime value rest).map (fun t => c + 1 + t)
  | .ans c answers :: rest =>
      if answers.isEmpty then (nsSatisfyTime value rest).map (fun t => c + 1 + t)
      else if answers.any (rrMatches value) then some c
      else (nsSatisfyTime value rest).map (fun t => c + t)

/-- Models monitorDNSPropagation of dns.go over explicit per-nameserver
response streams: one polling loop per nameserver, joined by the wait group;
the driver succeeds when every loop has returned before the 300 second
timer fires, and then sleeps one TTL; otherwise the timeout error is
returned.  The second component lists the sleeps performed after the join. -/
def monitorDNSPropagation (streams : List (List DNSResp)) (value : String) (ttl : Nat) :
    Except String Unit × List Nat :=
  let times := streams.map (nsSatisfyTime value)
  if (times.all (fun t => t.isSome)) = true ∧
      (times.map (fun t => t.getD 0)).foldl Nat.max 0 < 300 then
    (.ok (), [ttl])
  else (.error "Timeout waiting for DNS propagation", [])

/-- A nameserver loop returns only when its stream holds an answer with a
TXT record matching the challenge value. -/
theorem nsSatisfyTime_isSome (value : String) :
    ∀ s : List DNSResp, (nsSatisfyTime value s).isSome = true →
      ∃ r ∈ s, ∃ c answers, r = .ans c answers ∧ answers.any (rrMatches value) = true
  | [] => by simp [nsSatisfyTime]
  | .queryErr c :: rest => by
      intro h
      cases hrec : nsSatisfyTime value rest with
      | none => simp [nsSatisfyTime, hrec] at h
      | some t =>
          obtain ⟨r, hr, hx⟩ := nsSatisfyTime_isSome value rest (by simp [hrec])
          exact ⟨r, by simp [hr], hx⟩
  | .ans c answers :: rest => by
      intro h
      cases he : answers.isEmpty with
      | true =>
          cases hrec : nsSatisfyTime value rest with
          | none => simp [nsSatisfyTime, he, hrec] at h
          | some t =>
              obtain ⟨r, hr, hx⟩ := nsSatisfyTime_isSome value rest (by simp [hrec])
              exact ⟨r, by simp [hr], hx⟩
      | false =>
          cases hm : answers.any (rrMatches value) with
          | true => exact ⟨.ans c answers, by simp, c, answers, rfl, hm⟩
          | false =>
              cases hrec : nsSatisfyTime value rest with
              | none => simp [nsSatisfyTime, he, hm, hrec] at h
              | some t =>
                  obtain ⟨r, hr, hx⟩ := nsSatisfyTime_isSome value rest (by simp [hrec])
                  exact ⟨r, by simp [hr], hx⟩

/-- C4: the propagation monitor succeeds only when every nameserver stream
contains an answer holding a TXT record whose concatenated strings equal the
challenge value; empty answers and query errors only shift the loop (retry,
never success or failure); on success the driver sleeps exactly one TTL
before returning; and when not every nameserver is satisfied inside the 300
second global window the propagation-timeout error is returned. -/
theorem monitorDNSPropagation_spec (streams : List (List DNSResp)) (value : String)
    (ttl : Nat) :
    ((monitorDNSPropagation streams value ttl).1 = .ok () →
      ∀ s ∈ streams, ∃ r ∈ s, ∃ c answers,
        r = .ans c answers ∧ answers.any (rrMatches value) = true) ∧
    ((monitorDNSPropagation streams value ttl).1 = .ok () →
      (monitorDNSPropagation streams value ttl).2 = [ttl]) ∧
    (∀ c rest, nsSatisfyTime value (.queryErr c :: rest) =
        (nsSatisfyTime value rest).map (fun t => c + 1 + t)) ∧
    (∀ c rest, nsSatisfyTime value (.ans c [] :: rest) =
        (nsSatisfyTime value rest).map (fun t => c + 1 + t)) ∧
    (¬ (((streams.map (nsSatisfyTime value)).all (fun t => t.isSome)) = true ∧
        ((streams.map (nsSatisfyTime value)).map (fun t => t.getD 0)).foldl Nat.max 0 < 300) →
      (monitorDNSPropagation streams value ttl).1 =
        .error "Timeout waiting for DNS propagation") := by
  by_cases hcond : ((streams.map (nsSatisfyTime value)).all (fun t => t.isSome)) = true ∧
      ((streams.map (nsSatisfyTime value)).map (fun t => t.getD 0)).foldl Nat.max 0 < 300
  · refine ⟨?_, ?_, fun c rest => rfl, fun c rest => by simp [nsSatisfyTime], fun hn => absurd hcond hn⟩
    · intro hok s hs
      have hall := hcond.1
      rw [List.all_eq_true] at hall
      have hmem : nsSatisfyTime value s ∈ streams.map (nsSatisfyTime value) :=
        List.mem_map_of_mem _ hs
      exact nsSatisfyTime_isSome value s (by simpa using hall _ hmem)
    · intro hok
      show (monitorDNSPropagation streams value ttl).2 = [ttl]
      unfold monitorDNSPropagation
      rw [if_pos hcond]
  · refine ⟨?_, ?_, fun c rest => rfl, fun c rest => by simp [nsSatisfyTime], fun hn => ?_⟩
    · intro hok
      exfalso
      unfold monitorDNSPropagation at hok
      rw [if_neg hcond] at hok
      exact Except.noConfusion hok
    · intro hok
      exfalso
      unfold monitorDNSPropagation at hok
      rw [if_neg hcond] at hok
      exact Except.noConfusion hok
    · unfold monitorDNSPropagation
      rw [if_neg hcond]

/-- Witness for C4: two nameservers, one answering immediately and one
erring once before answering; the monitor succeeds and sleeps one TTL of 30;
and a stalled third configuration times out. -/
theorem monitorDNSPropagation_spec_witness :
    (monitorDNSPropagation [[.ans 0 [.txt ["va", "l"]]], [.queryErr 2, .ans 1 [.txt ["val"]]]]
        "val" 30).1 = .ok () ∧
    (monitorDNSPropagation [[.ans 0 [.txt ["va", "l"]]], [.queryErr 2, .ans 1 [.txt ["val"]]]]
        "val" 30).2 = [30] ∧
    (∀ s ∈ [[DNSResp.ans 0 [DNSAnswerRR.txt ["va", "l"]]], [.queryErr 2, .ans 1 [.txt ["val"]]]],
      ∃ r ∈ s, ∃ c answers, r = DNSResp.ans c answers ∧
        answers.any (rrMatches "val") = true) ∧
    (monitorDNSPropagation [[.queryErr 5]] "val" 30).1 =
      .error "Timeout waiting for DNS propagation" := by
  refine ⟨rfl, ?_, ?_, ?_⟩
  · exact (monitorDNSPropagation_spec
      [[.ans 0 [.txt ["va", "l"]]], [.queryErr 2, .ans 1 [.txt ["val"]]]] "val" 30).2.1 rfl
  · exact (monitorDNSPropagation_spec
      [[.ans 0 [.txt ["va", "l"]]], [.queryErr 2, .ans 1 [.txt ["val"]]]] "val" 30).1 rfl
  · exact (monitorDNSPropagation_spec [[.queryErr 5]] "val" 30).2.2.2.2 (by decide)

/-- A FetchCert failure: the typed retry error carrying a duration (the
vendored acme RetryError, a Duration), or any other error. -/
inductive FetchErr where
  | retryAfter (d : Nat)
  | plain (msg : String)
deriving DecidableEq

/-- Sleep chosen for one failed fetch: the carried duration for the typed
retry error, otherwise the default 3 seconds. -/
def retrySleep : FetchErr → Nat
  | .retryAfter d => d
  | .plain _ => 3

/-- The unbounded FetchCert loop over its successive outcomes: stop at the
first success, recording one sleep per preceding failure; none when no
success is observed in the given outcomes (the loop would continue). -/
def fetchLoop : List (Except FetchErr (List (List Nat))) →
    Option (List (List Nat) × List Nat)
  | [] => none
  | .ok cert :: _ => some (cert, [])
  | .error e :: rest => (fetchLoop rest).map (fun p => (p.1, retrySleep e :: p.2))

/-- The oracle outcomes consulted by CreateCert of acme.go: CSR creation,
the new-cert call (inline chain or none, plus the certificate URL), and the
successive FetchCert outcomes. -/
structure CreateCertWorld where
  csrResult : Except String Unit
  createResult : Except String (Option (List (List Nat)) × String)
  fetches : List (Except FetchErr (List (List Nat)))
deriving DecidableEq

/-- Models CreateCert of acme.go: build the CSR, POST new-cert; when no
inline chain is returned, loop FetchCert sleeping the retry duration (or the
3 second default) after each failure; finally PEM-encode every DER block
with block type CERTIFICATE.  Returns none when the fetch loop never
succeeds within the given outcomes; otherwise the result and the sleeps. -/
def CreateCert (w : CreateCertWorld) :
    Option (Except String (List Nat × String) × List Nat) :=
  match w.csrResult with
  | .error e => some (.error e, [])
  | .ok _ =>
  match w.createResult with
  | .error e => some (.error e, [])
  | .ok (inline, certURL) =>
    match (match inline with
           | some cert => some (cert, ([] : List Nat))
           | none => fetchLoop w.fetches) with
    | none => none
    | some (blocks, sleeps) =>
        some (.ok ((List.map (pemEncodeBlock "CERTIFICATE") blocks).flatten, certURL), sleeps)

/-- The fetch loop consumes exactly the failing prefix, sleeping once per
failure, and returns the first successful chain. -/
theorem fetchLoop_prefix (errs : List FetchErr) (cert : List (List Nat))
    (rest : List (Except FetchErr (List (List Nat)))) :
    fetchLoop (List.map Except.error errs ++ .ok cert :: rest) =
      some (cert, List.map retrySleep errs) := by
  induction errs with
  | nil => rfl
  | cons e t ih => simp [fetchLoop, ih]

/-- C7: when the new-cert call returns no inline chain, CreateCert loops
FetchCert until a fetch succeeds, sleeping the duration carried by a typed
retry error and 3 seconds for any other failure, one sleep per failure; the
fetched chain is PEM-encoded blockwise with type CERTIFICATE and the
certificate URL is returned alongside. -/
theorem CreateCert_retry_spec (w : CreateCertWorld) (errs : List FetchErr)
    (cert : List (List Nat)) (rest : List (Except FetchErr (List (List Nat))))
    (url : String)
    (hcsr : w.csrResult = .ok ())
    (hcreate : w.createResult = .ok (none, url))
    (hf : w.fetches = List.map Except.error errs ++ .ok cert :: rest) :
    CreateCert w = some
      (.ok ((List.map (pemEncodeBlock "CERTIFICATE") cert).flatten, url),
       List.map retrySleep errs) ∧
    (∀ d, retrySleep (.retryAfter d) = d) ∧
    (∀ m, retrySleep (.plain m) = 3) := by
  refine ⟨?_, fun d => rfl, fun m => rfl⟩
  simp [CreateCert, hcsr, hcreate, hf, fetchLoop_prefix]

/-- Witness for C7 at the rate-limited scenario of the spec: one typed retry
error of 4 seconds followed by a successful fetch produces exactly one sleep
of 4 seconds. -/
theorem CreateCert_retry_spec_witness :
    CreateCert ⟨.ok (), .ok (none, "https://ca/cert/9"),
        [.error (.retryAfter 4), .ok [[1]]]⟩ = some
      (.ok ((List.map (pemEncodeBlock "CERTIFICATE") [[1]]).flatten, "https://ca/cert/9"),
       [4]) :=
  (CreateCert_retry_spec ⟨.ok (), .ok (none, "https://ca/cert/9"),
      [.error (.retryAfter 4), .ok [[1]]]⟩ [.retryAfter 4] [[1]] [] "https://ca/cert/9"
    rfl rfl rfl).1

/-- Models deleteKubernetesSecret of kubernetes.go: issue the DELETE and
treat any status other than 200 as an error. -/
def deleteKubernetesSecret (deleteResp : Except String Nat) (c : Certificate) :
    Except String Unit :=
  match deleteResp with
  | .error e => .error e
  | .ok status =>
      if status != 200 then
        .error ("Deleting " ++ c.spec.domain ++ " secret failed: " ++ toString status)
      else .ok ()

/-- Models deleteCertificate of part_001: delete the account record, then
delete the TLS secret; the store delete result is threaded through. -/
def deleteCertificate (db : Store) (deleteResp : Except String Nat) (c : Certificate) :
    Except String Store :=
  match deleteAccount c.spec.domain db with
  | .error e => .error ("Error deleting the account " ++ e)
  | .ok db2 =>
      match deleteKubernetesSecret deleteResp c with
      | .error e => .error e
      | .ok _ => .ok db2

/-- C8 counterexample: a DELETED event for a domain with no stored account
and no existing TLS secret (so the cluster answers 404 to the DELETE) does
not succeed: the secret delete rejects the 404 status and the handler
returns an error. -/
theorem deleteCertificate_unknown_domain_errors :
    deleteCertificate [] (.ok 404) certExample =
      .error ("Deleting example.com secret failed: 404") := by
  rfl

/-- C8 as amended: the account-store delete tolerates absence (deleting an
unknown domain succeeds and leaves the store unchanged), but the cluster
secret delete returns an error for every non-200 status — including the 404
answered for an absent secret — so the DELETED handler fails for a domain
with no existing secret, and succeeds only when the DELETE answers 200. -/
theorem deleteCertificate_absent_semantics (db : Store) (c : Certificate)
    (habs : findAccount c.spec.domain db = none) :
    deleteAccount c.spec.domain db = .ok db ∧
    (∀ s, s ≠ 200 → ∃ e, deleteCertificate db (.ok s) c = .error e) ∧
    deleteCertificate db (.ok 200) c = .ok db := by
  have hfind : List.find? (fun p => p.1 == c.spec.domain) db = none := by
    unfold findAccount at habs
    exact Option.map_eq_none.mp habs
  have hall : ∀ p ∈ db, (p.1 != c.spec.domain) = true := by
    intro p hp
    have := List.find?_eq_none.mp hfind p hp
    simpa [bne_iff_ne] using this
  have hdel : deleteAccount c.spec.domain db = .ok db := by
    unfold deleteAccount
    rw [List.filter_eq_self.mpr hall]
  refine ⟨hdel, ?_, ?_⟩
  · intro s hs
    refine ⟨"Deleting " ++ c.spec.domain ++ " secret failed: " ++ toString s, ?_⟩
    have hsb : (s != 200) = true := by simp [bne_iff_ne]; exact hs
    simp [deleteCertificate, hdel, deleteKubernetesSecret, hsb]
  · simp [deleteCertificate, hdel, deleteKubernetesSecret]

/-- Witness for the amended C8 theorem on the empty store: absence is
tolerated by the store delete, and the 404 secret delete fails the handler. -/
theorem deleteCertificate_absent_semantics_witness :
    findAccount certExample.spec.domain ([] : Store) = none ∧
    deleteAccount certExample.spec.domain ([] : Store) = .ok [] ∧
    (∃ e, deleteCertificate [] (.ok 404) certExample = .error e) ∧
    deleteCertificate [] (.ok 200) certExample = .ok [] :=
  ⟨rfl, (deleteCertificate_absent_semantics [] certExample rfl).1,
   (deleteCertificate_absent_semantics [] certExample rfl).2.1 404 (by decide),
   (deleteCertificate_absent_semantics [] certExample rfl).2.2⟩

/-- One connection attempt of the watch loop: a transport error, or a
response with its status and the events decoded before the stream breaks
(every stream eventually ends in a decode error). -/
inductive WatchAttempt where
  | transportErr (msg : String)
  | resp (status : Nat) (events : List String)
deriving DecidableEq

/-- Externally visible emissions of the watch goroutine. -/
inductive WatchEmit where
  | reopen
  | errOut
  | eventOut (e : String)
  | sleepFive
deriving DecidableEq

/-- Emissions of one connection attempt, after the opening GET: transport
errors and non-200 statuses push the error and sleep five seconds; a 200
stream pushes each decoded event, then pushes the decode error and breaks
with no sleep. -/
def watchAttemptEmits : WatchAttempt → List WatchEmit
  | .transportErr _ => [.errOut, .sleepFive]
  | .resp status events =>
      if status != 200 then [.errOut, .sleepFive]
      else List.map WatchEmit.eventOut events ++ [.errOut]

/-- Models the goroutine of monitorCertificateEvents of kubernetes.go over a
finite prefix of connection attempts: each iteration reopens the watch and
produces the attempt emissions; the loop itself never stops. -/
def monitorCertificateEvents (attempts : List WatchAttempt) : List WatchEmit :=
  (attempts.map (fun a => WatchEmit.reopen :: watchAttemptEmits a)).flatten

/-- Events successfully delivered by one attempt. -/
def watchEventsOf : WatchAttempt → List String
  | .transportErr _ => []
  | .resp status events => if status != 200 then [] else events

/-- Event payload extractor for the event channel. -/
def emitEvent? : WatchEmit → Option String
  | .eventOut x => some x
  | _ => none

/-- C9 counterexample: after a decode error on a 200 stream the watch is
reopened immediately — the next emission is the reopen, with no five second
sleep — contradicting the claim that every failure sleeps 5 s before the
reopen. -/
theorem monitorCertificateEvents_decode_error_no_sleep :
    monitorCertificateEvents [.resp 200 ["e1"], .transportErr "x"] =
      [.reopen, .eventOut "e1", .errOut, .reopen, .errOut, .sleepFive] ∧
    WatchEmit.sleepFive ∉ watchAttemptEmits (.resp 200 ["e1"]) :=
  ⟨rfl, by decide⟩

/-- No attempt emission is a reopen. -/
theorem watchAttemptEmits_count_reopen (a : WatchAttempt) :
    (watchAttemptEmits a).count WatchEmit.reopen = 0 := by
  cases a with
  | transportErr m => rfl
  | resp st evs =>
      cases hb : st != 200 with
      | true => simp [watchAttemptEmits, hb]
      | false =>
          simp only [watchAttemptEmits, hb, Bool.false_eq_true, if_false]
          rw [List.count_eq_zero]
          intro hmem
          rcases List.mem_append.mp hmem with h | h
          · obtain ⟨x, hx, heq⟩ := List.mem_map.mp h
            exact WatchEmit.noConfusion heq
          · simp at h

/-- Every attempt emits exactly one error on the error channel. -/
theorem watchAttemptEmits_count_err (a : WatchAttempt) :
    (watchAttemptEmits a).count WatchEmit.errOut = 1 := by
  cases a with
  | transportErr m => rfl
  | resp st evs =>
      cases hb : st != 200 with
      | true => simp [watchAttemptEmits, hb]
      | false =>
          simp only [watchAttemptEmits, hb, Bool.false_eq_true, if_false]
          rw [List.count_append]
          have h0 : (List.map WatchEmit.eventOut evs).count WatchEmit.errOut = 0 := by
            rw [List.count_eq_zero]
            intro hmem
            obtain ⟨x, hx, heq⟩ := List.mem_map.mp hmem
            exact WatchEmit.noConfusion heq
          rw [h0]
          rfl

/-- The event payloads of one attempt are exactly its decoded events. -/
theorem watchAttemptEmits_events (a : WatchAttempt) :
    (watchAttemptEmits a).filterMap emitEvent? = watchEventsOf a := by
  cases a with
  | transportErr m => rfl
  | resp st evs =>
      cases hb : st != 200 with
      | true => simp [watchAttemptEmits, watchEventsOf, hb, emitEvent?]
      | false =>
          simp only [watchAttemptEmits, watchEventsOf, hb, Bool.false_eq_true, if_false]
          rw [List.filterMap_append]
          have h1 : (List.map WatchEmit.eventOut evs).filterMap emitEvent? = evs := by
            induction evs with
            | nil => rfl
            | cons x t ih => simp [emitEvent?, ih]
          rw [h1]
          simp [emitEvent?]

/-- C9 as amended: every connection attempt begins with a reopen and the
reconnection is unbounded (one reopen per attempt); transport errors and
non-200 responses emit the error on the error channel and sleep five
seconds before the next reopen; a decode error on a 200 stream emits the
error and reopens immediately with no sleep; the event channel carries
exactly the decoded events and never an error, and every attempt emits
exactly one error on the error channel. -/
theorem monitorCertificateEvents_spec (attempts : List WatchAttempt) :
    (monitorCertificateEvents attempts).count WatchEmit.reopen = attempts.length ∧
    (∀ m, watchAttemptEmits (.transportErr m) = [.errOut, .sleepFive]) ∧
    (∀ st evs, st ≠ 200 → watchAttemptEmits (.resp st evs) = [.errOut, .sleepFive]) ∧
    (∀ evs, watchAttemptEmits (.resp 200 evs) =
      List.map WatchEmit.eventOut evs ++ [.errOut]) ∧
    (monitorCertificateEvents attempts).filterMap emitEvent? =
      (attempts.map watchEventsOf).flatten ∧
    (monitorCertificateEvents attempts).count WatchEmit.errOut = attempts.length := by
  refine ⟨?_, fun m => rfl, ?_, fun evs => by simp [watchAttemptEmits], ?_, ?_⟩
  · induction attempts with
    | nil => rfl
    | cons a t ih =>
        simp only [monitorCertificateEvents, List.map_cons, List.flatten_cons] at ih ⊢
        simp [List.count_cons, List.count_append, watchAttemptEmits_count_reopen, ih]
  · intro st evs hst
    have hb : (st != 200) = true := by simp [bne_iff_ne]; exact hst
    simp [watchAttemptEmits, hb]
  · induction attempts with
    | nil => rfl
    | cons a t ih =>
        simp only [monitorCertificateEvents, List.map_cons, List.flatten_cons] at ih ⊢
        simp [List.filterMap_cons, emitEvent?, List.filterMap_append,
          watchAttemptEmits_events, ih]
  · induction attempts with
    | nil => rfl
    | cons a t ih =>
        simp only [monitorCertificateEvents, List.map_cons, List.flatten_cons] at ih ⊢
        simp [List.count_cons, List.count_append, watchAttemptEmits_count_err, ih]
        omega

/-- Witness for the amended C9 theorem: two attempts yield two reopens, and a
500 response emits the error and the five second sleep. -/
theorem monitorCertificateEvents_spec_witness :
    (monitorCertificateEvents [.resp 200 ["e1"], .transportErr "x"]).count
      WatchEmit.reopen = 2 ∧
    watchAttemptEmits (.resp 500 []) = [.errOut, .sleepFive] :=
  ⟨(monitorCertificateEvents_spec [.resp 200 ["e1"], .transportErr "x"]).1,
   (monitorCertificateEvents_spec []).2.2.1 500 [] (by decide)⟩

/-- The per-request timeout of the HTTP client built by newACMEClient of
acme.go (seconds). -/
def httpClientTimeoutSeconds : Nat := 10

/-- The authorization polling loop of Accept in acme.go, from poll index i
with the given fuel: a transport error returns it, status invalid fails,
any other non-valid status sleeps 3 seconds and polls again, valid
succeeds.  none means the loop had not returned within the given number of
polls; the second component lists the sleeps performed. -/
def acceptLoopFrom (polls : Nat → Except String String) (i : Nat) :
    Nat → Option (Except String Unit × List Nat)
  | 0 => none
  | fuel + 1 =>
    match polls i with
    | .error e => some (.error e, [])
    | .ok status =>
      if status = "invalid" then some (.error "could not authorize", [])
      else if status ≠ "valid" then
        (acceptLoopFrom polls (i + 1) fuel).map (fun p => (p.1, 3 :: p.2))
      else some (.ok (), [])

/-- Models Accept of acme.go: post the challenge acceptance, then poll the
authorization status every 3 seconds with no overall deadline. -/
def Accept (acceptCallResult : Except String Unit)
    (polls : Nat → Except String String) (fuel : Nat) :
    Option (Except String Unit × List Nat) :=
  match acceptCallResult with
  | .error e => some (.error e, [])
  | .ok _ => acceptLoopFrom polls 0 fuel

/-- Under a server reporting pending forever the polling loop never returns,
whatever the number of polls observed. -/
theorem acceptLoopFrom_pending (polls : Nat → Except String String)
    (hp : ∀ j, polls j = .ok "pending") :
    ∀ fuel i, acceptLoopFrom polls i fuel = none := by
  intro fuel
  induction fuel with
  | zero => intro i; rfl
  | succ n ih => intro i; simp [acceptLoopFrom, hp i, ih (i + 1)]

/-- When the polling loop returns, some poll was a transport error, an
invalid status or a valid status, and every sleep performed was 3 seconds. -/
theorem acceptLoopFrom_some (polls : Nat → Except String String) :
    ∀ fuel i r s, acceptLoopFrom polls i fuel = some (r, s) →
      (∃ j, (∃ e, polls j = .error e) ∨ polls j = .ok "invalid" ∨ polls j = .ok "valid") ∧
      ∀ d ∈ s, d = 3 := by
  intro fuel
  induction fuel with
  | zero => intro i r s h; exact Option.noConfusion h
  | succ n ih =>
      intro i r s h
      simp only [acceptLoopFrom] at h
      cases hp : polls i with
      | error e =>
          rw [hp] at h
          replace h : some ((Except.error e : Except String Unit), ([] : List Nat)) = some (r, s) := h
          have hinj := Option.some.inj h
          rw [Prod.mk.injEq] at hinj
          refine ⟨⟨i, Or.inl ⟨e, hp⟩⟩, ?_⟩
          rw [← hinj.2]
          simp
      | ok status =>
          rw [hp] at h
          replace h : (if status = "invalid" then
              some ((Except.error "could not authorize" : Except String Unit), ([] : List Nat))
            else if status ≠ "valid" then
              Option.map (fun p => (p.1, 3 :: p.2)) (acceptLoopFrom polls (i + 1) n)
            else some (Except.ok (), [])) = some (r, s) := h
          by_cases hinv : status = "invalid"
          · rw [if_pos hinv] at h
            have hinj := Option.some.inj h
            rw [Prod.mk.injEq] at hinj
            subst hinv
            refine ⟨⟨i, Or.inr (Or.inl hp)⟩, ?_⟩
            rw [← hinj.2]
            simp
          · rw [if_neg hinv] at h
            by_cases hval : status = "valid"
            · rw [if_neg (by simp [hval])] at h
              have hinj := Option.some.inj h
              rw [Prod.mk.injEq] at hinj
              subst hval
              refine ⟨⟨i, Or.inr (Or.inr hp)⟩, ?_⟩
              rw [← hinj.2]
              simp
            · rw [if_pos hval] at h
              cases hrec : acceptLoopFrom polls (i + 1) n with
              | none => rw [hrec] at h; exact Option.noConfusion h
              | some p =>
                  obtain ⟨r2, s2⟩ := p
                  rw [hrec] at h
                  rw [show Option.map (fun p => (p.1, 3 :: p.2)) (some (r2, s2)) =
                      some (r2, 3 :: s2) from rfl] at h
                  have hinj := Option.some.inj h
                  rw [Prod.mk.injEq] at hinj
                  obtain ⟨hj, hs⟩ := ih (i + 1) r2 s2 hrec
                  refine ⟨hj, ?_⟩
                  rw [← hinj.2]
                  intro d hd
                  rcases List.mem_cons.mp hd with h3 | h3
                  · exact h3
                  · exact hs d h3

/-- C10: after a successful challenge accept the authorization polling loop
has no overall deadline: under a server reporting a pending status forever
Accept never returns regardless of how many polls are observed; whenever it
does return, some poll produced a valid status, an invalid status or a
transport error; every inter-poll sleep is 3 seconds; and only each
individual HTTP request is bounded, by the 10 second client timeout. -/
theorem Accept_polling_no_deadline (polls : Nat → Except String String) :
    ((∀ j, polls j = .ok "pending") → ∀ fuel, Accept (.ok ()) polls fuel = none) ∧
    (∀ fuel r s, Accept (.ok ()) polls fuel = some (r, s) →
      (∃ j, (∃ e, polls j = .error e) ∨ polls j = .ok "invalid" ∨ polls j = .ok "valid") ∧
      ∀ d ∈ s, d = 3) ∧
    httpClientTimeoutSeconds = 10 := by
  refine ⟨?_, ?_, rfl⟩
  · intro hp fuel
    exact acceptLoopFrom_pending polls hp fuel 0
  · intro fuel r s h
    exact acceptLoopFrom_some polls fuel 0 r s h

/-- A server that always answers pending. -/
def pollsPending : Nat → Except String String := fun _ => .ok "pending"

/-- A server that immediately answers valid. -/
def pollsValid : Nat → Except String String := fun _ => .ok "valid"

/-- Witness for C10: five polls of a perpetually pending server return
nothing, while a first valid poll terminates the loop. -/
theorem Accept_polling_no_deadline_witness :
    Accept (.ok ()) pollsPending 5 = none ∧
    (∃ j, (∃ e, pollsValid j = .error e) ∨ pollsValid j = .ok "invalid" ∨
      pollsValid j = .ok "valid") := by
  constructor
  · exact (Accept_polling_no_deadline pollsPending).1 (fun j => rfl) 5
  · exact ((Accept_polling_no_deadline pollsValid).2.1 1 (.ok ()) [] rfl).1
